import Mathlib

/-
Verification development for the DPWH HTML-to-CSV parser
(scripts/html_to_csv_parser.py).  The Python functions are shallowly
embedded as executable Lean definitions: strings are Lean `String`s
(lists of unicode code points, matching Python `str` semantics for
indexing, slicing and `len`), the stdlib helpers the script relies on
(`str.strip`, `float`, `html.unescape`, the two `re` patterns it
compiles) are modelled explicitly next to the code that uses them, and
each Python function keeps its source name.
-/

/-- Models Python's whitespace test (used by `str.strip()` and the regex
class `\s`) on the Latin-1 range, which covers the scraped data.  Wider
unicode whitespace is not modelled. -/
def pyIsSpace (c : Char) : Bool :=
  c == ' ' || c == '\t' || c == '\n' || c == '\r' || c == '\x0b' || c == '\x0c' ||
  c == '\x1c' || c == '\x1d' || c == '\x1e' || c == '\x1f' || c == '\x85' || c == '\xa0'

/-- Left part of Python `str.strip()`: drop leading whitespace. -/
def pyStripL (l : List Char) : List Char := l.dropWhile pyIsSpace

/-- Right part of Python `str.strip()`: drop trailing whitespace. -/
def pyStripR (l : List Char) : List Char := (l.reverse.dropWhile pyIsSpace).reverse

/-- Python `str.strip()` on a list of characters. -/
def pyStrip (l : List Char) : List Char := pyStripR (pyStripL l)

/-- Python `str.strip()` on a `String`. -/
def pyStripStr (s : String) : String := (pyStrip s.toList).asString

/-- Python slicing `s[:n]` on a `String`. -/
def pyTakeStr (n : Nat) (s : String) : String := (s.toList.take n).asString

/-- Python `str.startswith` (cf. `code.startswith("CRIT-")` in `ParseNotes.add`). -/
def listStartsWith : List Char → List Char → Bool
  | _, [] => true
  | [], _ :: _ => false
  | c :: r, p :: ps => c == p && listStartsWith r ps

/-- Python `str.startswith` on `String`s. -/
def strStartsWith (s pre : String) : Bool := listStartsWith s.toList pre.toList

/-- Truthiness of an optional Python string: `None` and `""` are falsy. -/
def optTruthy : Option String → Bool
  | none => false
  | some s => !(s == "")

/-- Python `" | ".join(notes_list)` as used in `ParseNotes.get_by_severity`. -/
def joinBar : List String → String
  | [] => ""
  | [x] => x
  | x :: y :: rest => x ++ " | " ++ joinBar (y :: rest)

/-- Python `"; ".join(...)` as used for the overflow contractor column. -/
def joinSemi : List String → String
  | [] => ""
  | [x] => x
  | x :: y :: rest => x ++ "; " ++ joinSemi (y :: rest)

/-- The truncation step of `ParseNotes.get_by_severity` (source lines 118-119):
`notes_str[:max_length-3] + "..."` when `len(notes_str) > max_length`. -/
def truncNotes (maxLen : Nat) (s : String) : String :=
  if s.length > maxLen then ((s.toList.take (maxLen - 3)).asString) ++ "..." else s

/-- Body of `ParseNotes.get_by_severity` (source lines 109-121): `None` on an
empty bucket, else the `" | "`-join, truncated. -/
def serializeBucket (l : List String) (maxLen : Nat) : Option String :=
  if l.isEmpty then none else some (truncNotes maxLen (joinBar l))

/-- The four severity buckets of the Python `ParseNotes` accumulator
(source lines 82-89). -/
structure ParseNotes where
  critical : List String
  errors : List String
  warnings : List String
  info : List String
  deriving DecidableEq, Repr

/-- Fresh `ParseNotes()` instance: four empty lists. -/
def ParseNotes.empty : ParseNotes := ⟨[], [], [], []⟩

/-- `ParseNotes.add` (source lines 91-107): format `"{code}: {message}"` and
route it to the bucket selected by the code prefix; unknown prefixes are
silently dropped.  The `message.format(**kwargs)` substitution of the Python
code is resolved at each call site, so `add` receives the final message. -/
def ParseNotes.add (st : ParseNotes) (code msg : String) : ParseNotes :=
  let full := code ++ ": " ++ msg
  if strStartsWith code "CRIT-" then { st with critical := st.critical ++ [full] }
  else if strStartsWith code "ERR-" then { st with errors := st.errors ++ [full] }
  else if strStartsWith code "WARN-" then { st with warnings := st.warnings ++ [full] }
  else if strStartsWith code "INFO-" then { st with info := st.info ++ [full] }
  else st

/-- `getattr(self, severity, [])` dispatch inside `get_by_severity`. -/
def bucketFor (st : ParseNotes) (severity : String) : List String :=
  if severity = "critical" then st.critical
  else if severity = "errors" then st.errors
  else if severity = "warnings" then st.warnings
  else if severity = "info" then st.info
  else []

/-- `ParseNotes.get_by_severity` (source lines 109-121). -/
def ParseNotes.get_by_severity (st : ParseNotes) (severity : String) (maxLen : Nat) :
    Option String :=
  serializeBucket (bucketFor st severity) maxLen

/-- The four serialized note columns returned by `ParseNotes.get_all_columns`. -/
structure NoteCols where
  critical_errors : Option String
  errors : Option String
  warnings : Option String
  info_notes : Option String
  deriving DecidableEq, Repr

/-- `ParseNotes.get_all_columns` (source lines 123-130). -/
def ParseNotes.get_all_columns (st : ParseNotes) (maxLen : Nat) : NoteCols :=
  ⟨st.get_by_severity "critical" maxLen, st.get_by_severity "errors" maxLen,
   st.get_by_severity "warnings" maxLen, st.get_by_severity "info" maxLen⟩

/-- `ParseNotes.merge` (source lines 136-145): each truthy serialized column of
the other source is appended to the matching bucket as one entry. -/
def ParseNotes.merge (st : ParseNotes) (o : NoteCols) : ParseNotes :=
  let st1 := if optTruthy o.critical_errors then
    { st with critical := st.critical ++ [o.critical_errors.getD ""] } else st
  let st2 := if optTruthy o.errors then
    { st1 with errors := st1.errors ++ [o.errors.getD ""] } else st1
  let st3 := if optTruthy o.warnings then
    { st2 with warnings := st2.warnings ++ [o.warnings.getD ""] } else st2
  if optTruthy o.info_notes then
    { st3 with info := st3.info ++ [o.info_notes.getD ""] } else st3

/-
Model of Python `float(str)`.  The script calls `float` on comma-stripped
cost texts and on accomplishment texts.  Python `float` accepts optional
surrounding whitespace, an optional sign, the words inf/infinity/nan
(case-insensitively), or a decimal literal with optional fraction and
exponent, with underscores allowed between digits.  The numeric value is
modelled exactly as a rational; rounding to IEEE double is abstracted away
(the script only compares the value against 0 and 100 and prints it).
-/

/-- A Python float value: a finite (exact rational) value or one of the
special values produced by `float("inf")`, `float("-inf")`, `float("nan")`. -/
inductive PyFloat where
  | finite (q : ℚ)
  | inf
  | ninf
  | nan
  deriving DecidableEq, Repr

/-- The comparison `value < r` on a Python float (false on nan). -/
def PyFloat.ltQ : PyFloat → ℚ → Bool
  | .finite q, r => q < r
  | .inf, _ => false
  | .ninf, _ => true
  | .nan, _ => false

/-- The comparison `value > r` on a Python float (false on nan). -/
def PyFloat.gtQ : PyFloat → ℚ → Bool
  | .finite q, r => r < q
  | .inf, _ => true
  | .ninf, _ => false
  | .nan, _ => false

/-- Maximal run of ASCII decimal digits at the head of a list. -/
def digitRun : List Char → Nat
  | [] => 0
  | c :: r => if c.isDigit then digitRun r + 1 else 0

/-- Maximal run of whitespace at the head of a list. -/
def wsRun : List Char → Nat
  | [] => 0
  | c :: r => if pyIsSpace c then wsRun r + 1 else 0

/-- Digit-group scanner for `float`: consumes digits with single underscores
allowed only between two digits, returning the digits (underscores removed)
and the unconsumed rest.  A dangling underscore is left unconsumed, which
makes the whole literal fail as in Python (`float("1_")` raises). -/
def digitsU : List Char → List Char × List Char
  | [] => ([], [])
  | c :: '_' :: c2 :: r2 =>
    if c.isDigit then
      if c2.isDigit then
        let (d, rest) := digitsU (c2 :: r2)
        (c :: d, rest)
      else ([c], '_' :: c2 :: r2)
    else ([], c :: '_' :: c2 :: r2)
  | c :: r =>
    if c.isDigit then
      let (d, rest) := digitsU r
      (c :: d, rest)
    else ([], c :: r)

/-- Numeric value of a list of decimal digits. -/
def natOfDigits (l : List Char) : Nat :=
  l.foldl (fun a c => a * 10 + (c.toNat - '0'.toNat)) 0

/-- Optional sign for `float`: returns the sign and the rest. -/
def parseSign : List Char → Int × List Char
  | '+' :: r => (1, r)
  | '-' :: r => (-1, r)
  | l => (1, l)

/-- Exponent suffix of a `float` literal (`e`/`E`, optional sign, digits). -/
def parseExp : List Char → Option Int
  | [] => some 0
  | c :: r =>
    if c == 'e' || c == 'E' then
      let (es, r1) := parseSign r
      let (ed, r2) := digitsU r1
      if ed.isEmpty || !r2.isEmpty then none
      else some (es * (natOfDigits ed : Int))
    else none

/-- Mantissa and exponent of a decimal `float` literal (after the sign):
`digits [. digits]` or `. digits`, then an optional exponent.  Returns the
mantissa digits, the number of fraction digits, and the exponent. -/
def parseMantissa (l : List Char) : Option (List Char × Nat × Int) :=
  let (ip, r1) := digitsU l
  match r1 with
  | '.' :: r2 =>
    let (fp, r3) := digitsU r2
    if ip.isEmpty && fp.isEmpty then none
    else match parseExp r3 with
      | some e => some (ip ++ fp, fp.length, e)
      | none => none
  | _ =>
    if ip.isEmpty then none
    else match parseExp r1 with
      | some e => some (ip, 0, e)
      | none => none

/-- Power of ten, kept as a plain recursion so that kernel evaluation works. -/
def pow10 : Nat → Nat
  | 0 => 1
  | n + 1 => 10 * pow10 n

/-- Rational value of a parsed decimal literal,
`sign * digits * 10 ^ (e - fracLen)` as an exact rational. -/
def decimalValue (sign : Int) (digits : List Char) (fracLen : Nat) (e : Int) : ℚ :=
  let ex : Int := e - (fracLen : Int)
  if 0 ≤ ex then mkRat (sign * (natOfDigits digits : Int) * (pow10 ex.toNat : Int)) 1
  else mkRat (sign * (natOfDigits digits : Int)) (pow10 (-ex).toNat)

/-- Case-insensitive keyword comparison for inf/infinity/nan. -/
def lowerIs (l : List Char) (kw : List Char) : Bool :=
  (l.map Char.toLower) == kw

/-- Model of Python `float(s)`: `none` when the call raises `ValueError`. -/
def pyFloat (s : String) : Option PyFloat :=
  let l := pyStrip s.toList
  let (sign, r) := parseSign l
  if lowerIs r "inf".toList || lowerIs r "infinity".toList then
    some (if sign = 1 then .inf else .ninf)
  else if lowerIs r "nan".toList then some .nan
  else match parseMantissa r with
    | some (ds, fl, e) => some (.finite (decimalValue sign ds fl e))
    | none => none

/-- Fraction-digit expansion for printing a terminating decimal; `fuel` bounds
the number of emitted digits. -/
def fracDigitsOf (fuel : Nat) (num den : Nat) : List Char :=
  match fuel with
  | 0 => []
  | fuel + 1 =>
    if num = 0 then []
    else
      let n10 := num * 10
      Char.ofNat ('0'.toNat + n10 / den) :: fracDigitsOf fuel (n10 % den) den

/-- Display of a Python float by `str.format`, as in the note messages.
Exact for integral values (`-100.0` prints as `"-100.0"`) and terminating
decimals; the shortest-roundtrip behaviour of `repr(float)` on
non-terminating binary fractions is abstracted. -/
def pyFloatRepr : PyFloat → String
  | .inf => "inf"
  | .ninf => "-inf"
  | .nan => "nan"
  | .finite q =>
    if q.den = 1 then toString q.num ++ ".0"
    else
      (if q < 0 then "-" else "") ++
        toString (q.num.natAbs / q.den) ++ "." ++
        (fracDigitsOf 400 (q.num.natAbs % q.den) q.den).asString

/-- Python `cost_text.replace(',', '')`. -/
def stripCommas (s : String) : String := (s.toList.filter (fun c => c != ',')).asString

/-- Emptiness test of `clean_cost` (source line 209):
`not cost_text or cost_text.strip() == ''`. -/
def blankOpt : Option String → Bool
  | none => true
  | some s => s == "" || pyStripStr s == ""

/-- Core of `clean_cost` (source lines 205-225), returning the value and the
`ParseNotes` state before column serialization. -/
def clean_cost_core (cost_text : Option String) : Option PyFloat × ParseNotes :=
  let notes := ParseNotes.empty
  if blankOpt cost_text then
    (none, notes.add "WARN-011" "Empty cost field")
  else
    let s := cost_text.getD ""
    let cleaned := stripCommas s
    match pyFloat cleaned with
    | none => (none, notes.add "ERR-021" ("Invalid cost format: \x27" ++ s ++ "\x27"))
    | some v =>
      if v.ltQ 0 then
        (none, notes.add "ERR-022" ("Negative cost value: " ++ pyFloatRepr v))
      else (some v, notes)

/-- `clean_cost` as returned to the caller: value plus serialized columns. -/
def clean_cost (cost_text : Option String) : Option PyFloat × NoteCols :=
  ((clean_cost_core cost_text).1, (clean_cost_core cost_text).2.get_all_columns 500)

/-- Core of `clean_percentage` (source lines 250-265). -/
def clean_percentage_core (pct_text : Option String) : Option PyFloat × ParseNotes :=
  let notes := ParseNotes.empty
  if blankOpt pct_text then
    (none, notes)
  else
    let s := pct_text.getD ""
    match pyFloat s with
    | none => (none, notes.add "ERR-023" ("Invalid percentage format: \x27" ++ s ++ "\x27"))
    | some v =>
      if v.ltQ 0 || v.gtQ 100 then
        (some v, notes.add "ERR-024" ("Percentage out of range: " ++ pyFloatRepr v))
      else (some v, notes)

/-- `clean_percentage` as returned to the caller. -/
def clean_percentage (pct_text : Option String) : Option PyFloat × NoteCols :=
  ((clean_percentage_core pct_text).1, (clean_percentage_core pct_text).2.get_all_columns 500)

/-- Modelled from the spec and the `dateutil` documentation: the third-party
permissive date parser `dateutil.parser.parse`, restricted to the common
numeric `Y-M-D` / `M/D/Y` layouts; the repository only pipes its result
through `strftime('%Y-%m-%d')` and none of the claims depend on which texts
it accepts. -/
def dateutilParse (s : String) : Option (Nat × Nat × Nat) :=
  let toks := (s.toList.splitOnP (fun c => c == '-' || c == '/')).map List.asString
  match toks with
  | [a, b, c] =>
    if a.toList.all Char.isDigit && b.toList.all Char.isDigit &&
        c.toList.all Char.isDigit && a ≠ "" && b ≠ "" && c ≠ "" then
      let na := natOfDigits a.toList
      let nb := natOfDigits b.toList
      let nc := natOfDigits c.toList
      if a.length = 4 then
        if 1 ≤ nb && nb ≤ 12 && 1 ≤ nc && nc ≤ 31 then some (na, nb, nc) else none
      else
        if 1 ≤ na && na ≤ 12 && 1 ≤ nb && nb ≤ 31 then some (nc, na, nb) else none
    else none
  | _ => none

/-- Zero-padded decimal rendering, as produced by `strftime`. -/
def padNum (w n : Nat) : String :=
  let d := toString n
  (List.replicate (w - d.length) '0').asString ++ d

/-- `parsed.strftime('%Y-%m-%d')`. -/
def formatDateISO (d : Nat × Nat × Nat) : String :=
  padNum 4 d.1 ++ "-" ++ padNum 2 d.2.1 ++ "-" ++ padNum 2 d.2.2

/-- Core of `parse_date` (source lines 228-247). -/
def parse_date_core (date_text : Option String) (field_name : String) :
    Option String × ParseNotes :=
  let notes := ParseNotes.empty
  if blankOpt date_text then
    if field_name = "effectivity" then (none, notes.add "WARN-012" "Empty effectivity date")
    else if field_name = "expiry" then (none, notes.add "WARN-013" "Empty expiry date")
    else (none, notes)
  else
    let s := date_text.getD ""
    match dateutilParse s with
    | some d => (some (formatDateISO d), notes)
    | none =>
      if field_name = "effectivity" then
        (none, notes.add "ERR-031" ("Invalid effectivity date format: \x27" ++ s ++ "\x27"))
      else if field_name = "expiry" then
        (none, notes.add "ERR-032" ("Invalid expiry date format: \x27" ++ s ++ "\x27"))
      else (none, notes)

/-- `parse_date` as returned to the caller. -/
def parse_date (date_text : Option String) (field_name : String) :
    Option String × NoteCols :=
  ((parse_date_core date_text field_name).1,
   (parse_date_core date_text field_name).2.get_all_columns 500)

/-- First-occurrence split: Python `text.split(sep, 1)` returning the two
pieces, or `none` when the separator does not occur. -/
def splitOnce (sep : List Char) : List Char → Option (List Char × List Char)
  | [] => if sep.isEmpty then some ([], []) else none
  | c :: r =>
    if sep.isPrefixOf (c :: r) then some ([], (c :: r).drop sep.length)
    else match splitOnce sep r with
      | some (a, b) => some (c :: a, b)
      | none => none

/-- `split_implementing_office` (source lines 326-342). -/
def split_implementing_office (office_text : Option String) :
    Option String × Option String :=
  match office_text with
  | none => (none, none)
  | some s =>
    if s == "" then (none, none)
    else match splitOnce " - ".toList s.toList with
      | some (a, b) => (some (pyStrip a).asString, some (pyStrip b).asString)
      | none => (none, some (pyStrip s.toList).asString)

/-
Model of the compiled pattern `(.*?\(.*?\))?\s*\((\d+)\)` of
`parse_contractors` (source line 289) under Python `re` semantics:
`finditer` yields non-overlapping matches, leftmost start first; at a
fixed start the optional group is tried before its absence (greedy `?`),
and inside it the two lazy `.*?` runs are extended shortest-first (the
first one outermost).  `.` does not cross a newline.  The greedy `\s*`
and `\d+` runs are deterministic here because neither whitespace nor a
digit can begin the required continuation.
-/

/-- Match `\((\d+)\)` at the head of `l`: consumed length (digit count + 2).
The greedy `\d+` run is deterministic because shrinking it leaves a digit
where `\)` is required. -/
def matchC : List Char → Option Nat
  | [] => none
  | c :: r =>
    if c = '(' then
      if digitRun r = 0 then none
      else if r.get? (digitRun r) = some ')' then some (digitRun r + 2) else none
    else none

/-- Match `\s*\((\d+)\)` at the head of `l`. -/
def matchBC (l : List Char) : Option Nat :=
  let w := wsRun l
  (matchC (l.drop w)).map (· + w)

/-- Inside the optional group, after its `\(`: scan `.*?\)` closings
shortest-first, requiring `\s*\((\d+)\)` after the closing; a newline stops
the lazy dot run. Returns the total consumed length from this point. -/
def afterParen : List Char → Option Nat
  | [] => none
  | c :: rest =>
    if c = ')' then
      match matchBC rest with
      | some b => some (1 + b)
      | none => (afterParen rest).map (· + 1)
    else if c = '\n' then none
    else (afterParen rest).map (· + 1)

/-- The optional group with its continuation, `.*?\(.*?\)\s*\((\d+)\)`:
scan `\(` openings shortest-first. -/
def matchAPart : List Char → Option Nat
  | [] => none
  | c :: rest =>
    if c = '\n' then none
    else if c = '(' then
      match afterParen rest with
      | some m => some (1 + m)
      | none => (matchAPart rest).map (· + 1)
    else (matchAPart rest).map (· + 1)

/-- Try the whole pattern at one start position: the optional group present
first, then absent. Returns the consumed length of the preferred match. -/
def tryMatchAt (l : List Char) : Option Nat :=
  match matchAPart l with
  | some n => some n
  | none => matchBC l

/-- The scan loop of `finditer`: try each start position in order, emit the
end offset of each match and resume there.  `fuel` only bounds the recursion
and never runs out when called with `length + 1` (every step consumes at
least one character). -/
def findIterGo : Nat → List Char → Nat → List Nat
  | 0, _, _ => []
  | _ + 1, [], _ => []
  | fuel + 1, c :: t, p =>
    match tryMatchAt (c :: t) with
    | some L => (p + L) :: findIterGo fuel ((c :: t).drop L) (p + L)
    | none => findIterGo fuel t (p + 1)

/-- End offsets of all matches of the contractor pattern, as consumed by
`parse_contractors` (which only reads `match.end()`). -/
def findEnds (cs : List Char) : List Nat := findIterGo (cs.length + 1) cs 0

/-- Models `html.unescape` restricted to the common named character
references; other ampersand runs (rare in this data) pass through
unchanged. -/
def pyUnescape : List Char → List Char
  | [] => []
  | '&' :: 'a' :: 'm' :: 'p' :: ';' :: r => '&' :: pyUnescape r
  | '&' :: 'l' :: 't' :: ';' :: r => '<' :: pyUnescape r
  | '&' :: 'g' :: 't' :: ';' :: r => '>' :: pyUnescape r
  | '&' :: 'q' :: 'u' :: 'o' :: 't' :: ';' :: r => '"' :: pyUnescape r
  | '&' :: 'a' :: 'p' :: 'o' :: 's' :: ';' :: r => '\x27' :: pyUnescape r
  | '&' :: 'n' :: 'b' :: 's' :: 'p' :: ';' :: r => '\xa0' :: pyUnescape r
  | c :: r => c :: pyUnescape r

/-- One parsed contractor entry: the `(name, id, has_stray_slash, truncated)`
tuple of `parse_contractors`. -/
structure Contractor where
  name : String
  id : Option String
  hasSlash : Bool
  truncated : Bool
  deriving DecidableEq, Repr

/-- Leftmost match of `re.search(r'\((\d+)\)\s*$', full_contractor)`
(source line 297): start index and captured digits.  `$` also matching just
before a final newline coincides here with "only whitespace follows". -/
def idSearchEnd : List Char → Nat → Option (Nat × List Char)
  | [], _ => none
  | c :: r, i =>
    if c = '(' ∧ digitRun r ≠ 0 ∧ r.get? (digitRun r) = some ')' ∧
        (r.drop (digitRun r + 1)).all pyIsSpace then
      some (i, r.take (digitRun r))
    else idSearchEnd r (i + 1)

/-- Leftmost match of `re.search(r'\((\d+)\)', full_contractor)`
(source line 313): start index and captured digits. -/
def idSearchAny : List Char → Nat → Option (Nat × List Char)
  | [], _ => none
  | c :: r, i =>
    if c = '(' ∧ digitRun r ≠ 0 ∧ r.get? (digitRun r) = some ')' then
      some (i, r.take (digitRun r))
    else idSearchAny r (i + 1)

/-- Occurrences of a character, Python `name.count('(')`. -/
def countChar (l : List Char) (c : Char) : Nat := l.count c

/-- Python `lstrip('/')`. -/
def lstripSlash (l : List Char) : List Char := l.dropWhile (fun c => c == '/')

/-- Build one contractor entry from a match span (source lines 295-321):
strip the span, look for a trailing `(digits)` id; on success extract and
clean the name, marking unbalanced parentheses with a trailing `~`; on
failure fall back to any `(digits)` group anywhere in the span and mark the
entry truncated. -/
def mkContractor (span : List Char) : Contractor :=
  let full := pyStrip span
  match idSearchEnd full 0 with
  | some (st, ds) =>
    let name0 := pyStrip (full.take st)
    let name1 := pyStrip (lstripSlash name0)
    if countChar name1 '(' ≠ countChar name1 ')' then
      let nameT := pyStripR name1 ++ ['~']
      { name := nameT.asString, id := some ds.asString,
        hasSlash := nameT.contains '/', truncated := true }
    else
      { name := name1.asString, id := some ds.asString,
        hasSlash := name1.contains '/', truncated := false }
  | none =>
    match idSearchAny full 0 with
    | some (st, ds) =>
      let fn := pyStrip (lstripSlash (full.take st))
      { name := (pyStripR fn ++ ['~']).asString, id := some ds.asString,
        hasSlash := fn.contains '/', truncated := true }
    | none =>
      let fn := pyStrip (lstripSlash full)
      { name := (pyStripR fn ++ ['~']).asString, id := none,
        hasSlash := fn.contains '/', truncated := true }

/-- Spans between consecutive match ends: `contractor_text[last_end:end]`. -/
def contractorSpans (cs : List Char) (lastEnd : Nat) : List Nat → List (List Char)
  | [] => []
  | e :: rest => ((cs.drop lastEnd).take (e - lastEnd)) :: contractorSpans cs e rest

/-- `parse_contractors` (source lines 268-323). -/
def parse_contractors (contractor_text : Option String) : List Contractor :=
  if !(optTruthy contractor_text) then []
  else
    let cs := pyUnescape (pyStrip (contractor_text.getD "").toList)
    (contractorSpans cs 0 (findEnds cs)).map mkContractor

/-- `name[:30] if name else 'Unknown'` at the note call sites of
`get_contractor_columns`. -/
def contractorDisplay (n : Nat) (name : String) : String :=
  if name == "" then "Unknown" else pyTakeStr n name

/-- The three per-entry note additions of `get_contractor_columns`
(source lines 371-376 and 389-394), in source order. -/
def noteForEntry (st : ParseNotes) (e : Contractor) : ParseNotes :=
  let st1 := if !(optTruthy e.id) then
    st.add "ERR-042" ("Contractor missing ID code: \x27" ++ contractorDisplay 30 e.name ++ "\x27")
  else st
  let st2 := if e.hasSlash then
    st1.add "WARN-043"
      ("Contractor name contains slash (/) - may need manual review: \x27" ++
        contractorDisplay 50 e.name ++ "\x27")
  else st1
  if e.truncated then
    st2.add "WARN-044" ("Contractor name appears truncated: \x27" ++ contractorDisplay 50 e.name ++ "\x27")
  else st2

/-- The `for i in range(1, max_contractors)` loop (source lines 366-379):
slot assignment for the first `max_contractors - 1` entries, with absent
slots left empty, accumulating per-entry notes. -/
def slotLoop : Nat → List Contractor → ParseNotes →
    List (Option String × Option String) × ParseNotes
  | 0, _, st => ([], st)
  | n + 1, [], st => (List.replicate (n + 1) (none, none), st)
  | n + 1, e :: rest, st =>
    let st1 := noteForEntry st e
    let (slots, st2) := slotLoop n rest st1
    ((some e.name, e.id) :: slots, st2)

/-- The combine loop for the last slot (source lines 383-394): names and ids
of the remaining entries, an absent id contributing an empty segment. -/
def combineLoop : List Contractor → ParseNotes →
    (List String × List String) × ParseNotes
  | [], st => (([], []), st)
  | e :: rest, st =>
    let st1 := noteForEntry st e
    let ((ns, ids), st2) := combineLoop rest st1
    ((e.name :: ns, (if optTruthy e.id then e.id.getD "" else "") :: ids), st2)

/-- Core of `get_contractor_columns` (source lines 345-406): the slot list
(`contractor_name_i`/`contractor_id_i` pairs for `i = 1..max_contractors`)
and the note collector state before column serialization. -/
def get_contractor_columns_core (contractor_text : Option String) (max_contractors : Nat) :
    List (Option String × Option String) × ParseNotes :=
  let notes := ParseNotes.empty
  if !(optTruthy contractor_text) then
    (List.replicate max_contractors (none, none),
     notes.add "ERR-003" "Missing contractor information")
  else
    let contractors := parse_contractors contractor_text
    let sres := slotLoop (max_contractors - 1) contractors notes
    let cres :=
      if contractors.length ≥ max_contractors then
        let cc := combineLoop (contractors.drop (max_contractors - 1)) sres.2
        ((some (joinSemi cc.1.1), some (joinSemi cc.1.2)),
         if contractors.length > max_contractors then
           cc.2.add "WARN-041"
             (toString contractors.length ++
               " contractors found, stored in 4 columns (excess combined in column 4)")
         else cc.2)
      else ((none, none), sres.2)
    let st3 := if contractors.length > 1 then
      cres.2.add "INFO-045" ("Joint venture with " ++ toString contractors.length ++ " contractors")
    else cres.2
    (sres.1 ++ [cres.1], st3)

/-- `get_contractor_columns` as returned to the caller: slots plus the four
serialized note columns. -/
def get_contractor_columns (contractor_text : Option String) (max_contractors : Nat) :
    List (Option String × Option String) × NoteCols :=
  ((get_contractor_columns_core contractor_text max_contractors).1,
   (get_contractor_columns_core contractor_text max_contractors).2.get_all_columns 500)

/-- Substring containment, Python `pattern in x`. -/
def listContainsSub (pat : List Char) : List Char → Bool
  | [] => pat.isEmpty
  | c :: t => pat.isPrefixOf (c :: t) || listContainsSub pat t

/-- A `tr` row as observed by the parser: the text of its first
`th[scope=row]` header cell (when present) and, in document order, the
`(id, text)` pairs of its span descendants.  This is the full observable
interface the script uses on a row (`find('th', scope='row')` and
`find('span', id=...)`). -/
structure Tr where
  rowTh : Option String
  spans : List (String × String)
  deriving DecidableEq, Repr

/-- A `tbody` element: its class list and its `tr` children in order. -/
structure Tbody where
  classes : List String
  trs : List Tr
  deriving DecidableEq, Repr

/-- `extract_span_by_pattern` (source lines 199-202): first span whose id is
truthy and contains the pattern, text trimmed (`get_text(strip=True)`). -/
def extract_span_by_pattern (tr : Tr) (pattern : String) : Option String :=
  match tr.spans.find? (fun sp => !(sp.1 == "") && listContainsSub pattern.toList sp.1.toList) with
  | some sp => some (pyStripStr sp.2)
  | none => none

/-- `extract_contracts` (source lines 186-196): keep the tbodies with the
`table-group-divider` class whose first `tr` has a row-scoped header cell. -/
def extract_contracts (soup : List Tbody) : List Tbody :=
  (soup.filter (fun tb => tb.classes.contains "table-group-divider")).filter
    (fun tb => match tb.trs.head? with
      | some tr => tr.rowTh.isSome
      | none => false)

/-- The assembled output record of `extract_contract_data`: the fixed fields
plus the four serialized note columns.  The four contractor name/id slots are
kept as an ordered list of pairs. -/
structure ContractRecord where
  row_number : Option String
  contract_id : Option String
  description : Option String
  contractors : List (Option String × Option String)
  region : Option String
  implementing_office : Option String
  source_of_funds : Option String
  cost_php : Option PyFloat
  effectivity_date : Option String
  expiry_date : Option String
  status : Option String
  accomplishment_pct : Option PyFloat
  year : Int
  source_office : String
  file_source : String
  critical_errors : Option String
  errors : Option String
  warnings : Option String
  info_notes : Option String
  deriving DecidableEq, Repr

/-- Python `rstrip('.')` composed after `strip()`, used on the row number. -/
def stripRowNumber (t : String) : String :=
  ((pyStrip t.toList).reverse.dropWhile (fun c => c == '.')).reverse.asString

/-- The note accumulation pipeline of `extract_contract_data` (source lines
417-488): the row-scoped `ParseNotes` after all field checks, contractor
parsing, normalizer merges and the status check, in source order. -/
def extract_contract_notes (tr : Tr) : ParseNotes :=
  let notes0 := ParseNotes.empty
  let notes1 := if !(optTruthy (extract_span_by_pattern tr "lblCustomerId")) then
    notes0.add "ERR-001" "Missing contract ID" else notes0
  let notes2 := if !(optTruthy (extract_span_by_pattern tr "lblContactName")) then
    notes1.add "ERR-002" "Missing contract description" else notes1
  let notes3 := notes2.merge (get_contractor_columns (extract_span_by_pattern tr "lblCountry") 4).2
  let notes4 := if !(optTruthy (extract_span_by_pattern tr "Label5")) then
    notes3.add "ERR-004" "Missing implementing office" else notes3
  let notes5 := if !(optTruthy (extract_span_by_pattern tr "Label6")) then
    notes4.add "ERR-005" "Missing source of funds" else notes4
  let notes6 := notes5.merge (clean_cost (extract_span_by_pattern tr "Label2")).2
  let notes7 := notes6.merge (parse_date (extract_span_by_pattern tr "Label3") "effectivity").2
  let notes8 := notes7.merge (parse_date (extract_span_by_pattern tr "Label4") "expiry").2
  let notes9 := if !(optTruthy (extract_span_by_pattern tr "Label7")) then
    notes8.add "WARN-014" "Empty status field" else notes8
  notes9.merge (clean_percentage (extract_span_by_pattern tr "Label1")).2

/-- `extract_contract_data` (source lines 409-490): `none` when the tbody has
no `tr` (the row is dropped), otherwise the assembled record.  The note
pipeline is `extract_contract_notes`; the region/office split repeats the
`Label5` truthiness test instead of sharing one `if`, which is the same
branch. -/
def extract_contract_data (tbody : Tbody) (year : Int) (office_name filename : String) :
    Option ContractRecord :=
  match tbody.trs.head? with
  | none => none
  | some tr =>
    let office_raw := extract_span_by_pattern tr "Label5"
    let regionOffice :=
      if !(optTruthy office_raw) then ((none : Option String), (none : Option String))
      else split_implementing_office office_raw
    let cols := (extract_contract_notes tr).get_all_columns 500
    some
      { row_number := tr.rowTh.map stripRowNumber
        contract_id := extract_span_by_pattern tr "lblCustomerId"
        description := extract_span_by_pattern tr "lblContactName"
        contractors := (get_contractor_columns (extract_span_by_pattern tr "lblCountry") 4).1
        region := regionOffice.1
        implementing_office := regionOffice.2
        source_of_funds := extract_span_by_pattern tr "Label6"
        cost_php := (clean_cost (extract_span_by_pattern tr "Label2")).1
        effectivity_date := (parse_date (extract_span_by_pattern tr "Label3") "effectivity").1
        expiry_date := (parse_date (extract_span_by_pattern tr "Label4") "expiry").1
        status := extract_span_by_pattern tr "Label7"
        accomplishment_pct := (clean_percentage (extract_span_by_pattern tr "Label1")).1
        year := year
        source_office := office_name
        file_source := filename
        critical_errors := cols.critical_errors
        errors := cols.errors
        warnings := cols.warnings
        info_notes := cols.info_notes }

/-- The row-processing loop of `process_html_file` (source lines 499-512),
with file I/O and exception logging stripped: every valid tbody is fed to
`extract_contract_data` and the non-null records are collected. -/
def process_html_file_core (soup : List Tbody) (year : Int) (office_name filename : String) :
    List ContractRecord :=
  (extract_contracts soup).filterMap (fun tb => extract_contract_data tb year office_name filename)

theorem toList_asString (l : List Char) : l.asString.toList = l := rfl

theorem string_toList_append (a b : String) : (a ++ b).toList = a.toList ++ b.toList :=
  String.data_append a b

theorem string_length_append (a b : String) : (a ++ b).length = a.length + b.length := by
  show (a ++ b).data.length = a.data.length + b.data.length
  rw [String.data_append, List.length_append]

theorem toList_inj {a b : String} (h : a.toList = b.toList) : a = b := by
  cases a; cases b
  simp only [String.toList] at h
  simp [h]

theorem add_to_critical (st : ParseNotes) (code msg : String)
    (h1 : strStartsWith code "CRIT-" = true) :
    ParseNotes.add st code msg = { st with critical := st.critical ++ [code ++ ": " ++ msg] } := by
  unfold ParseNotes.add
  simp [h1]

theorem add_to_errors (st : ParseNotes) (code msg : String)
    (h1 : strStartsWith code "CRIT-" = false) (h2 : strStartsWith code "ERR-" = true) :
    ParseNotes.add st code msg = { st with errors := st.errors ++ [code ++ ": " ++ msg] } := by
  unfold ParseNotes.add
  simp [h1, h2]

theorem add_to_warnings (st : ParseNotes) (code msg : String)
    (h1 : strStartsWith code "CRIT-" = false) (h2 : strStartsWith code "ERR-" = false)
    (h3 : strStartsWith code "WARN-" = true) :
    ParseNotes.add st code msg = { st with warnings := st.warnings ++ [code ++ ": " ++ msg] } := by
  unfold ParseNotes.add
  simp [h1, h2, h3]

theorem add_to_info (st : ParseNotes) (code msg : String)
    (h1 : strStartsWith code "CRIT-" = false) (h2 : strStartsWith code "ERR-" = false)
    (h3 : strStartsWith code "WARN-" = false) (h4 : strStartsWith code "INFO-" = true) :
    ParseNotes.add st code msg = { st with info := st.info ++ [code ++ ": " ++ msg] } := by
  unfold ParseNotes.add
  simp [h1, h2, h3, h4]

/-- C10: for every note-collector state and every call to `add` with a code
whose prefix is none of CRIT-, ERR-, WARN-, INFO-, all four severity buckets
remain unchanged -- the note is silently dropped, not recorded or raised. -/
theorem c10_unknown_code_dropped (st : ParseNotes) (code msg : String)
    (h1 : strStartsWith code "CRIT-" = false) (h2 : strStartsWith code "ERR-" = false)
    (h3 : strStartsWith code "WARN-" = false) (h4 : strStartsWith code "INFO-" = false) :
    ParseNotes.add st code msg = st := by
  unfold ParseNotes.add
  simp [h1, h2, h3, h4]

theorem c10_unknown_code_dropped_witness :
    strStartsWith "NOTE-099" "CRIT-" = false ∧ strStartsWith "NOTE-099" "ERR-" = false ∧
    strStartsWith "NOTE-099" "WARN-" = false ∧ strStartsWith "NOTE-099" "INFO-" = false ∧
    ParseNotes.add ⟨["c"], ["e"], ["w"], ["i"]⟩ "NOTE-099" "unrouted" = ⟨["c"], ["e"], ["w"], ["i"]⟩ :=
  ⟨rfl, rfl, rfl, rfl, c10_unknown_code_dropped _ _ _ rfl rfl rfl rfl⟩

/-- C6: serializing a note bucket returns nothing when the bucket is empty;
otherwise it returns the entries joined by `" | "`, and whenever the joined
string exceeds the maximum length (default 500) the result is exactly 500
characters long with its final 3 characters equal to `"..."`. -/
theorem c6_bucket_serialization (st : ParseNotes) (sev : String) :
    (bucketFor st sev = [] → st.get_by_severity sev 500 = none) ∧
    (bucketFor st sev ≠ [] →
      ∃ s, st.get_by_severity sev 500 = some s ∧
        ((joinBar (bucketFor st sev)).length ≤ 500 → s = joinBar (bucketFor st sev)) ∧
        (500 < (joinBar (bucketFor st sev)).length →
          s.length = 500 ∧ "...".toList <:+ s.toList)) := by
  constructor
  · intro h
    unfold ParseNotes.get_by_severity serializeBucket
    simp [h]
  · intro h
    refine ⟨truncNotes 500 (joinBar (bucketFor st sev)), ?_, ?_, ?_⟩
    · unfold ParseNotes.get_by_severity serializeBucket
      simp [h]
    · intro hle
      unfold truncNotes
      rw [if_neg (by omega)]
    · intro hgt
      unfold truncNotes
      rw [if_pos (by omega)]
      constructor
      · rw [string_length_append]
        have h1 : (((joinBar (bucketFor st sev)).toList.take (500 - 3)).asString).length
            = ((joinBar (bucketFor st sev)).toList.take (500 - 3)).length := rfl
        have h2 : (joinBar (bucketFor st sev)).toList.length = (joinBar (bucketFor st sev)).length := rfl
        rw [h1, List.length_take]
        have h4 : (497 : Nat) ⊓ (joinBar (bucketFor st sev)).toList.length = 497 := by
          rw [h2]; omega
        have h5 : ("..." : String).length = 3 := rfl
        rw [show (500 : Nat) - 3 = 497 from rfl, h4, h5]
      · rw [string_toList_append, toList_asString]
        exact List.suffix_append _ _

def c6wNote : String := (List.replicate 520 'a').asString

def c6wSt : ParseNotes := ⟨[], [], [c6wNote], []⟩

set_option maxRecDepth 20000 in
theorem c6_bucket_serialization_witness :
    bucketFor c6wSt "warnings" ≠ [] ∧ 500 < (joinBar (bucketFor c6wSt "warnings")).length ∧
    ∃ s, c6wSt.get_by_severity "warnings" 500 = some s ∧ s.length = 500 ∧
      "...".toList <:+ s.toList := by
  obtain ⟨s, h1, _, h2⟩ := (c6_bucket_serialization c6wSt "warnings").2 (by decide)
  have hgt : 500 < (joinBar (bucketFor c6wSt "warnings")).length := by decide
  exact ⟨by decide, hgt, s, h1, (h2 hgt).1, (h2 hgt).2⟩

/-- C2: the cost normalizer returns no value and exactly the note WARN-011 on
an empty or absent text; on non-empty text it strips commas and parses a
decimal number, returning no value and exactly ERR-021 (carrying the
offending text) on parse failure, no value and exactly ERR-022 (carrying the
parsed value) on a negative value, and the parsed non-negative value with no
note otherwise. -/
theorem c2_clean_cost (t : Option String) :
    (blankOpt t = true →
      clean_cost_core t = (none, ⟨[], [], ["WARN-011" ++ ": " ++ "Empty cost field"], []⟩)) ∧
    (∀ s, t = some s → blankOpt t = false →
      (pyFloat (stripCommas s) = none →
        clean_cost_core t =
          (none, ⟨[], ["ERR-021" ++ ": " ++ ("Invalid cost format: \x27" ++ s ++ "\x27")], [], []⟩)) ∧
      (∀ v, pyFloat (stripCommas s) = some v → v.ltQ 0 = true →
        clean_cost_core t =
          (none, ⟨[], ["ERR-022" ++ ": " ++ ("Negative cost value: " ++ pyFloatRepr v)], [], []⟩)) ∧
      (∀ v, pyFloat (stripCommas s) = some v → v.ltQ 0 = false →
        clean_cost_core t = (some v, ParseNotes.empty))) := by
  constructor
  · intro h
    unfold clean_cost_core
    rw [if_pos h]
    rfl
  · rintro s rfl hb
    refine ⟨?_, ?_, ?_⟩
    · intro hp
      unfold clean_cost_core
      rw [if_neg (by simp [hb])]
      simp only [Option.getD_some, hp]
      rw [add_to_errors _ "ERR-021" _ rfl rfl]
      rfl
    · intro v hp hneg
      unfold clean_cost_core
      rw [if_neg (by simp [hb])]
      simp only [Option.getD_some, hp, hneg, if_true]
      rw [add_to_errors _ "ERR-022" _ rfl rfl]
      rfl
    · intro v hp hpos
      unfold clean_cost_core
      rw [if_neg (by simp [hb])]
      simp only [Option.getD_some, hp, hpos, if_false, Bool.false_eq_true]

theorem c2_clean_cost_witness :
    blankOpt (some "-100") = false ∧
    pyFloat (stripCommas "-100") = some (PyFloat.finite (-100)) ∧
    (PyFloat.finite (-100)).ltQ 0 = true ∧
    clean_cost_core (some "-100") =
      (none, ⟨[], ["ERR-022: Negative cost value: -100.0"], [], []⟩) := by
  have hp : pyFloat (stripCommas "-100") = some (PyFloat.finite (-100)) := by decide
  have h := ((c2_clean_cost (some "-100")).2 "-100" rfl (by decide)).2.1
    (PyFloat.finite (-100)) hp (by decide)
  exact ⟨by decide, hp, by decide, h.trans (by decide)⟩

/-- C3: the percentage normalizer returns no value and emits no note at all on
an empty or absent text; a value that parses but lies outside [0,100] is
retained (returned, not discarded) together with exactly the note ERR-024
carrying the out-of-range value -- in particular "150" returns 150.0 with
ERR-024 present (see the witness). -/
theorem c3_clean_percentage (t : Option String) :
    (blankOpt t = true → clean_percentage_core t = (none, ParseNotes.empty)) ∧
    (∀ s v, t = some s → blankOpt t = false → pyFloat s = some v →
      (v.ltQ 0 || v.gtQ 100) = true →
      clean_percentage_core t =
        (some v, ⟨[], ["ERR-024" ++ ": " ++ ("Percentage out of range: " ++ pyFloatRepr v)], [], []⟩)) := by
  constructor
  · intro h
    unfold clean_percentage_core
    rw [if_pos h]
  · rintro s v rfl hb hp hrange
    unfold clean_percentage_core
    rw [if_neg (by simp [hb])]
    simp only [Option.getD_some, hp, hrange, if_true]
    rw [add_to_errors _ "ERR-024" _ rfl rfl]
    rfl

theorem c3_clean_percentage_witness :
    blankOpt (some "150") = false ∧
    pyFloat "150" = some (PyFloat.finite 150) ∧
    ((PyFloat.finite 150).ltQ 0 || (PyFloat.finite 150).gtQ 100) = true ∧
    clean_percentage_core (some "150") =
      (some (PyFloat.finite 150), ⟨[], ["ERR-024: Percentage out of range: 150.0"], [], []⟩) := by
  have hp : pyFloat "150" = some (PyFloat.finite 150) := by decide
  have h := (c3_clean_percentage (some "150")).2 "150" (PyFloat.finite 150) rfl (by decide) hp (by decide)
  exact ⟨by decide, hp, by decide, h.trans (by decide)⟩

/-- C9: a contractor text that is non-empty but all whitespace produces zero
parsed entries, leaves all four contractor slots absent, and emits no note at
all -- in particular not ERR-003, which is reserved for the empty/absent
text case. -/
theorem c9_whitespace_contractors (t : String) (ht : t ≠ "")
    (hws : ∀ c ∈ t.toList, pyIsSpace c = true) :
    parse_contractors (some t) = [] ∧
    get_contractor_columns_core (some t) 4 =
      ([(none, none), (none, none), (none, none), (none, none)], ParseNotes.empty) ∧
    (get_contractor_columns (some t) 4).2 = ⟨none, none, none, none⟩ := by
  have htr : optTruthy (some t) = true := by
    simp [optTruthy]
    exact ht
  have hstrip : pyStrip t.toList = [] := by
    unfold pyStrip pyStripL pyStripR
    rw [List.dropWhile_eq_nil_iff.mpr hws]
    rfl
  have hparse : parse_contractors (some t) = [] := by
    unfold parse_contractors
    rw [htr]
    simp only [Bool.not_true, Bool.false_eq_true, if_false, Option.getD_some, hstrip]
    rfl
  have hcore : get_contractor_columns_core (some t) 4 =
      ([(none, none), (none, none), (none, none), (none, none)], ParseNotes.empty) := by
    unfold get_contractor_columns_core
    rw [htr]
    simp only [Bool.not_true, Bool.false_eq_true, if_false, hparse]
    rfl
  refine ⟨hparse, hcore, ?_⟩
  unfold get_contractor_columns
  rw [hcore]
  rfl

theorem c9_whitespace_contractors_witness :
    (" " : String) ≠ "" ∧ (∀ c ∈ (" " : String).toList, pyIsSpace c = true) ∧
    parse_contractors (some " ") = [] ∧
    get_contractor_columns_core (some " ") 4 =
      ([(none, none), (none, none), (none, none), (none, none)], ParseNotes.empty) := by
  have h := c9_whitespace_contractors " " (by decide) (by decide)
  exact ⟨by decide, by decide, h.1, h.2.1⟩

/-- Slot content for a zero-based entry index: the entry's name/id when the
index is populated, absent otherwise. -/
def slotOf (cs : List Contractor) (i : Nat) : Option String × Option String :=
  match cs.get? i with
  | some e => (some e.name, e.id)
  | none => (none, none)

/-- The ERR-042 message for one entry. -/
def missingIdMsg (e : Contractor) : String :=
  "Contractor missing ID code: \x27" ++ contractorDisplay 30 e.name ++ "\x27"

/-- The WARN-043 message for one entry. -/
def slashMsg (e : Contractor) : String :=
  "Contractor name contains slash (/) - may need manual review: \x27" ++
    contractorDisplay 50 e.name ++ "\x27"

/-- The WARN-044 message for one entry. -/
def truncMsg (e : Contractor) : String :=
  "Contractor name appears truncated: \x27" ++ contractorDisplay 50 e.name ++ "\x27"

theorem noteForEntry_buckets (st : ParseNotes) (e : Contractor) :
    (noteForEntry st e).critical = st.critical ∧
    (noteForEntry st e).errors = st.errors ++
      (if optTruthy e.id then [] else ["ERR-042" ++ ": " ++ missingIdMsg e]) ∧
    (noteForEntry st e).warnings = st.warnings ++
      ((if e.hasSlash then ["WARN-043" ++ ": " ++ slashMsg e] else []) ++
       (if e.truncated then ["WARN-044" ++ ": " ++ truncMsg e] else [])) ∧
    (noteForEntry st e).info = st.info := by
  unfold noteForEntry
  cases h1 : optTruthy e.id <;> cases h2 : e.hasSlash <;> cases h3 : e.truncated <;>
    simp [h1, h2, h3, add_to_errors _ "ERR-042" _ rfl rfl,
      add_to_warnings _ "WARN-043" _ rfl rfl rfl, add_to_warnings _ "WARN-044" _ rfl rfl rfl,
      missingIdMsg, slashMsg, truncMsg]

theorem foldl_noteForEntry_critical (l : List Contractor) (st : ParseNotes) :
    (l.foldl noteForEntry st).critical = st.critical := by
  induction l generalizing st with
  | nil => rfl
  | cons e rest ih => rw [List.foldl_cons, ih, (noteForEntry_buckets st e).1]

theorem foldl_noteForEntry_info (l : List Contractor) (st : ParseNotes) :
    (l.foldl noteForEntry st).info = st.info := by
  induction l generalizing st with
  | nil => rfl
  | cons e rest ih => rw [List.foldl_cons, ih, (noteForEntry_buckets st e).2.2.2]

theorem foldl_noteForEntry_errors (l : List Contractor) (st : ParseNotes)
    (h : ∀ e ∈ l, optTruthy e.id = true) :
    (l.foldl noteForEntry st).errors = st.errors := by
  induction l generalizing st with
  | nil => rfl
  | cons e rest ih =>
    rw [List.foldl_cons, ih _ (fun x hx => h x (List.mem_cons_of_mem e hx)),
      (noteForEntry_buckets st e).2.1, h e (List.mem_cons_self e rest)]
    simp

theorem foldl_noteForEntry_warnings (l : List Contractor) (st : ParseNotes) :
    ∃ w, (l.foldl noteForEntry st).warnings = st.warnings ++ w ∧
      ∀ m ∈ w, (∃ e, m = "WARN-043" ++ ": " ++ slashMsg e) ∨
        (∃ e, m = "WARN-044" ++ ": " ++ truncMsg e) := by
  induction l generalizing st with
  | nil => exact ⟨[], by simp, by simp⟩
  | cons e rest ih =>
    obtain ⟨w, hw, hshape⟩ := ih (noteForEntry st e)
    refine ⟨((if e.hasSlash then ["WARN-043" ++ ": " ++ slashMsg e] else []) ++
       (if e.truncated then ["WARN-044" ++ ": " ++ truncMsg e] else [])) ++ w, ?_, ?_⟩
    · rw [List.foldl_cons, hw, (noteForEntry_buckets st e).2.2.1, List.append_assoc]
    · intro m hm
      rcases List.mem_append.mp hm with hm | hm
      · rcases List.mem_append.mp hm with hm | hm
        · rcases h2 : e.hasSlash <;> rw [h2] at hm <;> simp at hm
          exact Or.inl ⟨e, hm⟩
        · rcases h3 : e.truncated <;> rw [h3] at hm <;> simp at hm
          exact Or.inr ⟨e, hm⟩
      · exact hshape m hm

theorem foldl_noteForEntry_warn044_mem (l : List Contractor) (st : ParseNotes)
    (e : Contractor) (he : e ∈ l) (ht : e.truncated = true) :
    ("WARN-044" ++ ": " ++ truncMsg e) ∈ (l.foldl noteForEntry st).warnings := by
  induction l generalizing st with
  | nil => cases he
  | cons x rest ih =>
    rw [List.foldl_cons]
    rcases List.mem_cons.mp he with rfl | he'
    · obtain ⟨w, hw, _⟩ := foldl_noteForEntry_warnings rest (noteForEntry st e)
      rw [hw, (noteForEntry_buckets st e).2.2.1, ht]
      simp
    · exact ih (noteForEntry st x) he'

theorem slotLoop_fst (n : Nat) (cs : List Contractor) (st : ParseNotes) :
    (slotLoop n cs st).1 = (List.range n).map (slotOf cs) := by
  induction n generalizing cs st with
  | zero => rfl
  | succ n ih =>
    cases cs with
    | nil =>
      show List.replicate (n + 1) (none, none) = _
      have h1 : ∀ i ∈ List.range (n + 1), slotOf [] i = (none, none) := by
        intro i _
        rfl
      rw [List.map_congr_left h1, List.map_const', List.length_range]
    | cons e rest =>
      show (some e.name, e.id) :: (slotLoop n rest (noteForEntry st e)).1 = _
      rw [ih, List.range_succ_eq_map, List.map_cons, List.map_map]
      have h2 : ∀ i ∈ List.range n, (slotOf (e :: rest) ∘ Nat.succ) i = slotOf rest i := by
        intro i _
        rfl
      rw [List.map_congr_left h2]
      rfl

theorem slotLoop_snd (n : Nat) (cs : List Contractor) (st : ParseNotes) :
    (slotLoop n cs st).2 = (cs.take n).foldl noteForEntry st := by
  induction n generalizing cs st with
  | zero => rfl
  | succ n ih =>
    cases cs with
    | nil => rfl
    | cons e rest =>
      show (slotLoop n rest (noteForEntry st e)).2 = _
      rw [ih, List.take_succ_cons, List.foldl_cons]

theorem combineLoop_fst (cs : List Contractor) (st : ParseNotes) :
    (combineLoop cs st).1 =
      (cs.map Contractor.name,
       cs.map (fun e => if optTruthy e.id then e.id.getD "" else "")) := by
  induction cs generalizing st with
  | nil => rfl
  | cons e rest ih =>
    show ((e.name :: (combineLoop rest (noteForEntry st e)).1.1,
           (if optTruthy e.id then e.id.getD "" else "") :: (combineLoop rest (noteForEntry st e)).1.2)) = _
    rw [ih]
    rfl

theorem combineLoop_snd (cs : List Contractor) (st : ParseNotes) :
    (combineLoop cs st).2 = cs.foldl noteForEntry st := by
  induction cs generalizing st with
  | nil => rfl
  | cons e rest ih =>
    show (combineLoop rest (noteForEntry st e)).2 = _
    rw [ih, List.foldl_cons]

theorem string_append_ne (a b x y : String) (hlen : a.length = b.length) (hne : a ≠ b) :
    a ++ x ≠ b ++ y := by
  intro h
  apply hne
  apply toList_inj
  have hd := congrArg String.toList h
  rw [string_toList_append, string_toList_append] at hd
  exact (List.append_inj hd hlen).1

theorem noteCode_ne (c1 c2 m1 m2 : String) (hlen : c1.length = c2.length) (hne : c1 ≠ c2) :
    c1 ++ ": " ++ m1 ≠ c2 ++ ": " ++ m2 := by
  apply string_append_ne
  · rw [string_length_append, string_length_append, hlen]
  · intro h
    apply hne
    apply toList_inj
    have hd := congrArg String.toList h
    rw [string_toList_append, string_toList_append] at hd
    exact List.append_cancel_right hd

theorem add_warnings_mono (st : ParseNotes) (code msg m : String) (hm : m ∈ st.warnings) :
    m ∈ (st.add code msg).warnings := by
  unfold ParseNotes.add
  split
  · exact hm
  · split
    · exact hm
    · split
      · simp only [List.mem_append]
        exact Or.inl hm
      · split
        · exact hm
        · exact hm

theorem foldl_noteForEntry_warnings_mono (l : List Contractor) (st : ParseNotes)
    (m : String) (hm : m ∈ st.warnings) : m ∈ (l.foldl noteForEntry st).warnings := by
  obtain ⟨w, hw, _⟩ := foldl_noteForEntry_warnings l st
  rw [hw]
  exact List.mem_append_left _ hm

/-- The WARN-041 note as formatted for a count of `n` entries. -/
def warn041Note (n : Nat) : String :=
  "WARN-041" ++ ": " ++
    (toString n ++ " contractors found, stored in 4 columns (excess combined in column 4)")

/-- The INFO-045 note as formatted for a count of `n` entries. -/
def info045Note (n : Nat) : String :=
  "INFO-045" ++ ": " ++ ("Joint venture with " ++ toString n ++ " contractors")

/-- Closed form for the note-collector state built by
`get_contractor_columns` on a non-empty text, proved equal in
`core_nonempty`. -/
def contractorNotesFor (cs : List Contractor) : ParseNotes :=
  let st1 := (cs.take 3).foldl noteForEntry ParseNotes.empty
  let st2 :=
    if cs.length ≥ 4 then
      let stc := (cs.drop 3).foldl noteForEntry st1
      if cs.length > 4 then
        stc.add "WARN-041"
          (toString cs.length ++ " contractors found, stored in 4 columns (excess combined in column 4)")
      else stc
    else st1
  if cs.length > 1 then
    st2.add "INFO-045" ("Joint venture with " ++ toString cs.length ++ " contractors")
  else st2

theorem core_nonempty (t : String) (ht : t ≠ "") :
    get_contractor_columns_core (some t) 4 =
      ((List.range 3).map (slotOf (parse_contractors (some t))) ++
        [if (parse_contractors (some t)).length ≥ 4 then
           (some (joinSemi (((parse_contractors (some t)).drop 3).map Contractor.name)),
            some (joinSemi (((parse_contractors (some t)).drop 3).map
              (fun e => if optTruthy e.id then e.id.getD "" else ""))))
         else (none, none)],
       contractorNotesFor (parse_contractors (some t))) := by
  have htr : optTruthy (some t) = true := by
    simp [optTruthy]
    exact ht
  unfold get_contractor_columns_core contractorNotesFor
  rw [htr]
  simp only [Bool.not_true, Bool.false_eq_true, if_false, slotLoop_fst, slotLoop_snd,
    combineLoop_fst, combineLoop_snd, show (4 : Nat) - 1 = 3 from rfl]
  by_cases h4 : (parse_contractors (some t)).length ≥ 4 <;> simp [h4]

/-- The note-collector state of `get_contractor_columns` just before the
INFO-045 step. -/
def preInfoState (cs : List Contractor) : ParseNotes :=
  if cs.length ≥ 4 then
    if cs.length > 4 then
      ((cs.drop 3).foldl noteForEntry ((cs.take 3).foldl noteForEntry ParseNotes.empty)).add
        "WARN-041"
        (toString cs.length ++ " contractors found, stored in 4 columns (excess combined in column 4)")
    else (cs.drop 3).foldl noteForEntry ((cs.take 3).foldl noteForEntry ParseNotes.empty)
  else (cs.take 3).foldl noteForEntry ParseNotes.empty

theorem contractorNotesFor_eq (cs : List Contractor) :
    contractorNotesFor cs =
      if cs.length > 1 then
        (preInfoState cs).add "INFO-045"
          ("Joint venture with " ++ toString cs.length ++ " contractors")
      else preInfoState cs := rfl

theorem preInfoState_warnings (cs : List Contractor) :
    ∃ w, (preInfoState cs).warnings =
        w ++ (if cs.length > 4 then [warn041Note cs.length] else []) ∧
      ∀ m ∈ w, (∃ e, m = "WARN-043" ++ ": " ++ slashMsg e) ∨
        (∃ e, m = "WARN-044" ++ ": " ++ truncMsg e) := by
  unfold preInfoState
  obtain ⟨w1, hw1, hs1⟩ := foldl_noteForEntry_warnings (cs.take 3) ParseNotes.empty
  by_cases h4 : cs.length ≥ 4
  · obtain ⟨w2, hw2, hs2⟩ :=
      foldl_noteForEntry_warnings (cs.drop 3) ((cs.take 3).foldl noteForEntry ParseNotes.empty)
    have hshape : ∀ m ∈ w1 ++ w2, (∃ e, m = "WARN-043" ++ ": " ++ slashMsg e) ∨
        (∃ e, m = "WARN-044" ++ ": " ++ truncMsg e) := by
      intro m hm
      rcases List.mem_append.mp hm with hm | hm
      · exact hs1 m hm
      · exact hs2 m hm
    by_cases h5 : cs.length > 4
    · simp only [h4, h5, if_true]
      rw [add_to_warnings _ "WARN-041" _ rfl rfl rfl]
      refine ⟨w1 ++ w2, ?_, hshape⟩
      show ((cs.drop 3).foldl noteForEntry _).warnings ++ _ = _
      rw [hw2, hw1]
      show (([] ++ w1) ++ w2) ++ _ = _
      rw [List.nil_append, List.append_assoc, List.append_assoc]
      rfl
    · simp only [h4, h5, if_true, if_false]
      refine ⟨w1 ++ w2, ?_, hshape⟩
      rw [hw2, hw1, List.append_nil]
      show ([] ++ w1) ++ w2 = _
      rw [List.nil_append]
  · have h5 : ¬ cs.length > 4 := by omega
    simp only [h4, h5, if_false]
    refine ⟨w1, ?_, hs1⟩
    rw [hw1, List.append_nil]
    show [] ++ w1 = _
    rw [List.nil_append]

theorem preInfoState_info (cs : List Contractor) : (preInfoState cs).info = [] := by
  unfold preInfoState
  by_cases h4 : cs.length ≥ 4
  · by_cases h5 : cs.length > 4
    · simp only [h4, h5, if_true]
      rw [add_to_warnings _ "WARN-041" _ rfl rfl rfl]
      show ((cs.drop 3).foldl noteForEntry _).info = []
      rw [foldl_noteForEntry_info, foldl_noteForEntry_info]
      rfl
    · simp only [h4, h5, if_true, if_false]
      rw [foldl_noteForEntry_info, foldl_noteForEntry_info]
      rfl
  · simp only [h4, if_false]
    rw [foldl_noteForEntry_info]
    rfl

theorem preInfoState_errors (cs : List Contractor)
    (h : ∀ e ∈ cs, optTruthy e.id = true) : (preInfoState cs).errors = [] := by
  have htk : ∀ e ∈ cs.take 3, optTruthy e.id = true := fun e he => h e (List.take_subset 3 cs he)
  have hdr : ∀ e ∈ cs.drop 3, optTruthy e.id = true := fun e he => h e (List.drop_subset 3 cs he)
  unfold preInfoState
  by_cases h4 : cs.length ≥ 4
  · by_cases h5 : cs.length > 4
    · simp only [h4, h5, if_true]
      rw [add_to_warnings _ "WARN-041" _ rfl rfl rfl]
      show ((cs.drop 3).foldl noteForEntry _).errors = []
      rw [foldl_noteForEntry_errors _ _ hdr, foldl_noteForEntry_errors _ _ htk]
      rfl
    · simp only [h4, h5, if_true, if_false]
      rw [foldl_noteForEntry_errors _ _ hdr, foldl_noteForEntry_errors _ _ htk]
      rfl
  · simp only [h4, if_false]
    rw [foldl_noteForEntry_errors _ _ htk]
    rfl

theorem preInfoState_warn044 (cs : List Contractor) (e : Contractor)
    (he : e ∈ cs) (ht : e.truncated = true) :
    ("WARN-044" ++ ": " ++ truncMsg e) ∈ (preInfoState cs).warnings := by
  have hsplit : e ∈ cs.take 3 ∨ e ∈ cs.drop 3 := by
    conv at he => rw [← List.take_append_drop 3 cs]
    exact List.mem_append.mp he
  unfold preInfoState
  by_cases h4 : cs.length ≥ 4
  · have hmem : ("WARN-044" ++ ": " ++ truncMsg e) ∈
        ((cs.drop 3).foldl noteForEntry ((cs.take 3).foldl noteForEntry ParseNotes.empty)).warnings := by
      rcases hsplit with hin | hin
      · exact foldl_noteForEntry_warnings_mono _ _ _
          (foldl_noteForEntry_warn044_mem _ _ _ hin ht)
      · exact foldl_noteForEntry_warn044_mem _ _ _ hin ht
    by_cases h5 : cs.length > 4
    · simp only [h4, h5, if_true]
      exact add_warnings_mono _ _ _ _ hmem
    · simp only [h4, h5, if_true, if_false]
      exact hmem
  · have hd : cs.drop 3 = [] := by
      rw [List.drop_eq_nil_iff]
      omega
    rcases hsplit with hin | hin
    · simp only [h4, if_false]
      exact foldl_noteForEntry_warn044_mem _ _ _ hin ht
    · rw [hd] at hin
      cases hin

theorem warn041_notin (n : Nat) (w : List String)
    (hs : ∀ m ∈ w, (∃ e, m = "WARN-043" ++ ": " ++ slashMsg e) ∨
      (∃ e, m = "WARN-044" ++ ": " ++ truncMsg e)) :
    warn041Note n ∉ w := by
  intro hm
  rcases hs _ hm with ⟨e, he⟩ | ⟨e, he⟩
  · unfold warn041Note at he
    exact noteCode_ne "WARN-041" "WARN-043" _ _ rfl (by decide) he
  · unfold warn041Note at he
    exact noteCode_ne "WARN-041" "WARN-044" _ _ rfl (by decide) he

/-- C1: on a non-empty contractor text with N parsed entries, entries 1-3 map
to slots 1-3 (unfilled slots absent); when N >= 4 slot 4 holds the
semicolon-joined names and ids of all entries from index 4 onward (an absent
id contributing an empty segment); WARN-041 carrying N is emitted iff N > 4,
and INFO-045 carrying N is emitted iff N > 1. -/
theorem c1_contractor_slot_assignment (t : String) (ht : t ≠ "") :
    (get_contractor_columns_core (some t) 4).1 =
      [slotOf (parse_contractors (some t)) 0, slotOf (parse_contractors (some t)) 1,
       slotOf (parse_contractors (some t)) 2,
       if (parse_contractors (some t)).length ≥ 4 then
         (some (joinSemi (((parse_contractors (some t)).drop 3).map Contractor.name)),
          some (joinSemi (((parse_contractors (some t)).drop 3).map
            (fun e => if optTruthy e.id then e.id.getD "" else ""))))
       else (none, none)] ∧
    (warn041Note (parse_contractors (some t)).length ∈
        (get_contractor_columns_core (some t) 4).2.warnings ↔
      (parse_contractors (some t)).length > 4) ∧
    (info045Note (parse_contractors (some t)).length ∈
        (get_contractor_columns_core (some t) 4).2.info ↔
      (parse_contractors (some t)).length > 1) := by
  rw [core_nonempty t ht, contractorNotesFor_eq]
  refine ⟨rfl, ?_, ?_⟩
  · obtain ⟨w, hw, hs⟩ := preInfoState_warnings (parse_contractors (some t))
    have hnotin := warn041_notin (parse_contractors (some t)).length w hs
    by_cases h1 : (parse_contractors (some t)).length > 1
    · simp only [h1, if_true]
      rw [add_to_info _ "INFO-045" _ rfl rfl rfl rfl]
      show warn041Note _ ∈ (preInfoState _).warnings ↔ _
      rw [hw]
      by_cases h5 : (parse_contractors (some t)).length > 4
      · simp [h5]
      · simp [h5, hnotin]
    · have h5 : ¬ (parse_contractors (some t)).length > 4 := by omega
      simp only [h1, if_false]
      rw [hw]
      simp [h5, hnotin]
  · by_cases h1 : (parse_contractors (some t)).length > 1
    · simp only [h1, if_true]
      rw [add_to_info _ "INFO-045" _ rfl rfl rfl rfl]
      show info045Note _ ∈ (preInfoState _).info ++ [_] ↔ _
      rw [preInfoState_info]
      simp [h1, info045Note]
    · simp only [h1, if_false]
      rw [preInfoState_info]
      simp [h1]

set_option maxRecDepth 40000 in
theorem c1_contractor_slot_assignment_witness :
    ("A CO (1) / B CO (2) / C CO (3) / D CO (4) / E CO (5)" : String) ≠ "" ∧
    (parse_contractors (some "A CO (1) / B CO (2) / C CO (3) / D CO (4) / E CO (5)")).length = 5 ∧
    (get_contractor_columns_core (some "A CO (1) / B CO (2) / C CO (3) / D CO (4) / E CO (5)") 4).1 =
      [(some "A CO", some "1"), (some "B CO", some "2"), (some "C CO", some "3"),
       (some "D CO; E CO", some "4; 5")] ∧
    warn041Note 5 ∈
      (get_contractor_columns_core (some "A CO (1) / B CO (2) / C CO (3) / D CO (4) / E CO (5)") 4).2.warnings ∧
    info045Note 5 ∈
      (get_contractor_columns_core (some "A CO (1) / B CO (2) / C CO (3) / D CO (4) / E CO (5)") 4).2.info := by
  have h := c1_contractor_slot_assignment "A CO (1) / B CO (2) / C CO (3) / D CO (4) / E CO (5)"
    (by decide)
  have hlen : (parse_contractors (some "A CO (1) / B CO (2) / C CO (3) / D CO (4) / E CO (5)")).length = 5 := by
    decide
  refine ⟨by decide, hlen, ?_, ?_, ?_⟩
  · rw [h.1]
    decide
  · rw [← hlen]
    exact h.2.1.mpr (by rw [hlen]; decide)
  · rw [← hlen]
    exact h.2.2.mpr (by rw [hlen]; decide)

theorem mkContractor_unbalanced (span : List Char)
    (hunb : countChar (mkContractor span).name.toList '(' ≠
      countChar (mkContractor span).name.toList ')') :
    (mkContractor span).truncated = true ∧ "~".toList <:+ (mkContractor span).name.toList := by
  rcases hE : idSearchEnd (pyStrip span) 0 with _ | ⟨st, ds⟩
  · unfold mkContractor
    simp only [hE]
    rcases hA : idSearchAny (pyStrip span) 0 with _ | ⟨st2, ds2⟩
    · simp only [hA]
      refine ⟨?_, by rw [toList_asString]; exact List.suffix_append _ _⟩
      trivial
    · simp only [hA]
      refine ⟨?_, by rw [toList_asString]; exact List.suffix_append _ _⟩
      trivial
  · unfold mkContractor at hunb ⊢
    simp only [hE] at hunb ⊢
    split
    · refine ⟨?_, by rw [toList_asString]; exact List.suffix_append _ _⟩
      trivial
    · rename_i h
      rw [if_neg h, toList_asString] at hunb
      exact absurd hunb h

theorem parse_contractors_nonempty (t : String) (ht : t ≠ "") :
    parse_contractors (some t) =
      (contractorSpans (pyUnescape (pyStrip t.toList)) 0
        (findEnds (pyUnescape (pyStrip t.toList)))).map mkContractor := by
  have htr : optTruthy (some t) = true := by
    simp [optTruthy]
    exact ht
  unfold parse_contractors
  rw [htr]
  rfl

/-- C5: a contractor entry whose extracted name has an unequal count of the
characters ( and ) is produced with a name ending in the tilde marker and
isTruncated set, and `get_contractor_columns` emits WARN-044 for it. -/
theorem c5_truncated_marker (t : String) (ht : t ≠ "") (e : Contractor)
    (he : e ∈ parse_contractors (some t))
    (hunb : countChar e.name.toList '(' ≠ countChar e.name.toList ')') :
    e.truncated = true ∧ "~".toList <:+ e.name.toList ∧
    ("WARN-044" ++ ": " ++ truncMsg e) ∈ (get_contractor_columns_core (some t) 4).2.warnings := by
  have hmk : e.truncated = true ∧ "~".toList <:+ e.name.toList := by
    rw [parse_contractors_nonempty t ht] at he
    obtain ⟨span, _, heq⟩ := List.mem_map.mp he
    rw [← heq]
    exact mkContractor_unbalanced span (heq ▸ hunb)
  refine ⟨hmk.1, hmk.2, ?_⟩
  rw [core_nonempty t ht]
  show _ ∈ (contractorNotesFor (parse_contractors (some t))).warnings
  rw [contractorNotesFor_eq]
  by_cases h1 : (parse_contractors (some t)).length > 1
  · simp only [h1, if_true]
    exact add_warnings_mono _ _ _ _ (preInfoState_warn044 _ e he hmk.1)
  · simp only [h1, if_false]
    exact preInfoState_warn044 _ e he hmk.1

theorem c5_truncated_marker_witness :
    ("AB( CO (1)" : String) ≠ "" ∧
    (⟨"AB( CO~", some "1", false, true⟩ : Contractor) ∈ parse_contractors (some "AB( CO (1)") ∧
    countChar ("AB( CO~" : String).toList '(' ≠ countChar ("AB( CO~" : String).toList ')' ∧
    (⟨"AB( CO~", some "1", false, true⟩ : Contractor).truncated = true ∧
    "~".toList <:+ ("AB( CO~" : String).toList ∧
    ("WARN-044" ++ ": " ++ truncMsg ⟨"AB( CO~", some "1", false, true⟩) ∈
      (get_contractor_columns_core (some "AB( CO (1)") 4).2.warnings := by
  have h := c5_truncated_marker "AB( CO (1)" (by decide) ⟨"AB( CO~", some "1", false, true⟩
    (by decide) (by decide)
  exact ⟨by decide, by decide, by decide, h.1, h.2.1, h.2.2⟩

theorem digitRun_le (l : List Char) : digitRun l ≤ l.length := by
  induction l with
  | nil => simp [digitRun]
  | cons c r ih =>
    unfold digitRun
    split
    · simp only [List.length_cons]
      omega
    · simp

theorem digitRun_take (l : List Char) : ∀ c ∈ l.take (digitRun l), c.isDigit = true := by
  induction l with
  | nil => simp [digitRun]
  | cons c r ih =>
    unfold digitRun
    split
    · rename_i hc
      intro x hx
      rw [List.take_succ_cons] at hx
      rcases List.mem_cons.mp hx with rfl | hx
      · exact hc
      · exact ih x hx
    · simp

theorem matchC_shape (u : List Char) (n : Nat) (h : matchC u = some n) :
    ∃ ds, ds ≠ [] ∧ (∀ c ∈ ds, c.isDigit = true) ∧ u.take n = '(' :: (ds ++ [')']) ∧
      n ≤ u.length ∧ 1 ≤ n := by
  cases u with
  | nil => exact absurd h (by simp [matchC])
  | cons c r =>
    rw [matchC] at h
    by_cases hc : c = '('
    · rw [if_pos hc] at h
      by_cases hd : digitRun r = 0
      · rw [if_pos hd] at h
        cases h
      · rw [if_neg hd] at h
        by_cases hq : r.get? (digitRun r) = some ')'
        · rw [if_pos hq] at h
          have hn : n = digitRun r + 2 := (Option.some.inj h).symm
          have hlt : digitRun r < r.length := by
            rcases List.get?_eq_some.mp hq with ⟨hlt, _⟩
            exact hlt
          refine ⟨r.take (digitRun r), ?_, digitRun_take r, ?_, ?_, by omega⟩
          · intro hnil
            have hlen := congrArg List.length hnil
            rw [List.length_take, List.length_nil, min_eq_left (le_of_lt hlt)] at hlen
            exact hd hlen
          · subst hn hc
            have hq2 : r[digitRun r]? = some ')' := by
              rw [← List.get?_eq_getElem?]
              exact hq
            rw [show digitRun r + 2 = (digitRun r + 1) + 1 from rfl, List.take_succ_cons,
              List.take_succ, hq2]
            rfl
          · subst hn
            simp only [List.length_cons]
            omega
        · rw [if_neg hq] at h
          cases h
    · rw [if_neg hc] at h
      cases h

theorem wsRun_le (l : List Char) : wsRun l ≤ l.length := by
  induction l with
  | nil => simp [wsRun]
  | cons c r ih =>
    unfold wsRun
    split
    · simp only [List.length_cons]
      omega
    · simp

theorem matchBC_shape (u : List Char) (n : Nat) (h : matchBC u = some n) :
    (∃ ds, ds ≠ [] ∧ (∀ c ∈ ds, c.isDigit = true) ∧ ('(' :: (ds ++ [')'])) <:+ u.take n) ∧
      n ≤ u.length ∧ 1 ≤ n := by
  unfold matchBC at h
  rcases hm : matchC (u.drop (wsRun u)) with _ | m
  · simp only [hm, Option.map_none'] at h
    cases h
  · simp only [hm, Option.map_some'] at h
    have hn : n = m + wsRun u := (Option.some.inj h).symm
    obtain ⟨ds, hne, hdig, htake, hle, hone⟩ := matchC_shape _ _ hm
    refine ⟨⟨ds, hne, hdig, ?_⟩, ?_, by omega⟩
    · subst hn
      rw [Nat.add_comm m (wsRun u), List.take_add, ← htake]
      exact List.suffix_append _ _
    · have := wsRun_le u
      have h2 : (u.drop (wsRun u)).length = u.length - wsRun u := List.length_drop _ _
      omega

theorem shape_lift_cons (c : Char) (rest : List Char) (m : Nat)
    (H : (∃ ds, ds ≠ [] ∧ (∀ x ∈ ds, x.isDigit = true) ∧
        ('(' :: (ds ++ [')'])) <:+ rest.take m) ∧ m ≤ rest.length ∧ 1 ≤ m) :
    (∃ ds, ds ≠ [] ∧ (∀ x ∈ ds, x.isDigit = true) ∧
        ('(' :: (ds ++ [')'])) <:+ (c :: rest).take (m + 1)) ∧
      m + 1 ≤ (c :: rest).length ∧ 1 ≤ m + 1 := by
  obtain ⟨⟨ds, h1, h2, h3⟩, h4, _⟩ := H
  refine ⟨⟨ds, h1, h2, ?_⟩, ?_, by omega⟩
  · rw [List.take_succ_cons]
    exact h3.trans (List.suffix_cons c _)
  · simp only [List.length_cons]
    omega

theorem afterParen_shape (u : List Char) (n : Nat) (h : afterParen u = some n) :
    (∃ ds, ds ≠ [] ∧ (∀ x ∈ ds, x.isDigit = true) ∧
        ('(' :: (ds ++ [')'])) <:+ u.take n) ∧ n ≤ u.length ∧ 1 ≤ n := by
  induction u generalizing n with
  | nil => exact absurd h (by simp [afterParen])
  | cons c rest ih =>
    rw [afterParen] at h
    by_cases hc : c = ')'
    · rw [if_pos hc] at h
      rcases hb : matchBC rest with _ | b
      · rw [hb] at h
        rcases ha : afterParen rest with _ | m
        · rw [ha] at h
          cases h
        · rw [ha, Option.map_some'] at h
          have hn : n = m + 1 := (Option.some.inj h).symm
          subst hn
          exact shape_lift_cons c rest m (ih m ha)
      · rw [hb] at h
        have hn : n = 1 + b := (Option.some.inj h).symm
        subst hn
        rw [Nat.add_comm 1 b]
        exact shape_lift_cons c rest b (matchBC_shape rest b hb)
    · rw [if_neg hc] at h
      by_cases hnl : c = '\n'
      · rw [if_pos hnl] at h
        cases h
      · rw [if_neg hnl] at h
        rcases ha : afterParen rest with _ | m
        · rw [ha] at h
          cases h
        · rw [ha, Option.map_some'] at h
          have hn : n = m + 1 := (Option.some.inj h).symm
          subst hn
          exact shape_lift_cons c rest m (ih m ha)

theorem matchAPart_shape (u : List Char) (n : Nat) (h : matchAPart u = some n) :
    (∃ ds, ds ≠ [] ∧ (∀ x ∈ ds, x.isDigit = true) ∧
        ('(' :: (ds ++ [')'])) <:+ u.take n) ∧ n ≤ u.length ∧ 1 ≤ n := by
  induction u generalizing n with
  | nil => exact absurd h (by simp [matchAPart])
  | cons c rest ih =>
    rw [matchAPart] at h
    by_cases hnl : c = '\n'
    · rw [if_pos hnl] at h
      cases h
    · rw [if_neg hnl] at h
      by_cases hc : c = '('
      · rw [if_pos hc] at h
        rcases ha : afterParen rest with _ | m
        · rw [ha] at h
          rcases hp : matchAPart rest with _ | m2
          · rw [hp] at h
            cases h
          · rw [hp, Option.map_some'] at h
            have hn : n = m2 + 1 := (Option.some.inj h).symm
            subst hn
            exact shape_lift_cons c rest m2 (ih m2 hp)
        · rw [ha] at h
          have hn : n = 1 + m := (Option.some.inj h).symm
          subst hn
          rw [Nat.add_comm 1 m]
          exact shape_lift_cons c rest m (afterParen_shape rest m ha)
      · rw [if_neg hc] at h
        rcases hp : matchAPart rest with _ | m2
        · rw [hp] at h
          cases h
        · rw [hp, Option.map_some'] at h
          have hn : n = m2 + 1 := (Option.some.inj h).symm
          subst hn
          exact shape_lift_cons c rest m2 (ih m2 hp)

theorem tryMatchAt_shape (u : List Char) (n : Nat) (h : tryMatchAt u = some n) :
    (∃ ds, ds ≠ [] ∧ (∀ x ∈ ds, x.isDigit = true) ∧
        ('(' :: (ds ++ [')'])) <:+ u.take n) ∧ n ≤ u.length ∧ 1 ≤ n := by
  unfold tryMatchAt at h
  rcases ha : matchAPart u with _ | m
  · rw [ha] at h
    exact matchBC_shape u n h
  · rw [ha] at h
    have hn : n = m := (Option.some.inj h).symm
    subst hn
    exact matchAPart_shape u n ha

/-- Invariant carried along the `finditer` scan: every emitted end offset
closes a span (measured from the previous end) whose text ends in a
parenthesized nonempty digit group. -/
def GoodEnds (cs : List Char) : Nat → List Nat → Prop
  | _, [] => True
  | last, e :: rest =>
    (∃ ds, ds ≠ [] ∧ (∀ x ∈ ds, x.isDigit = true) ∧
      ('(' :: (ds ++ [')'])) <:+ ((cs.drop last).take (e - last))) ∧ GoodEnds cs e rest

theorem findIterGo_good (cs : List Char) (fuel : Nat) : ∀ p last, last ≤ p →
    GoodEnds cs last (findIterGo fuel (cs.drop p) p) := by
  induction fuel with
  | zero =>
    intro p last _
    simp [findIterGo, GoodEnds]
  | succ fuel ih =>
    intro p last hlp
    rcases hd : cs.drop p with _ | ⟨c, t⟩
    · simp [findIterGo, GoodEnds]
    · rw [findIterGo]
      rcases hm : tryMatchAt (c :: t) with _ | L
      · show GoodEnds cs last (findIterGo fuel t (p + 1))
        have ht1 : t = cs.drop (p + 1) := by
          have h2 : List.drop 1 (cs.drop p) = cs.drop (p + 1) := List.drop_drop 1 p cs
          rw [hd] at h2
          have h3 : List.drop 1 (c :: t) = t := rfl
          rw [h3] at h2
          exact h2
        rw [ht1]
        exact ih (p + 1) last (by omega)
      · show GoodEnds cs last ((p + L) :: findIterGo fuel (List.drop L (c :: t)) (p + L))
        simp only [GoodEnds]
        obtain ⟨⟨ds, h1, h2, h3⟩, hle, hone⟩ := tryMatchAt_shape (c :: t) L hm
        constructor
        · refine ⟨ds, h1, h2, ?_⟩
          have heq : (cs.drop last).take (p + L - last) =
              (cs.drop last).take (p - last) ++ (cs.drop p).take L := by
            have h5 : p + L - last = (p - last) + L := by omega
            rw [h5, List.take_add]
            congr 1
            have h6 : last + (p - last) = p := by omega
            rw [List.drop_drop, h6]
          rw [heq, hd]
          exact h3.trans (List.suffix_append _ _)
        · have ht2 : (c :: t).drop L = cs.drop (p + L) := by
            rw [← hd, List.drop_drop]
          rw [ht2]
          exact ih (p + L) (p + L) (le_refl _)

theorem contractorSpans_shape (cs : List Char) (ends : List Nat) : ∀ last,
    GoodEnds cs last ends →
    ∀ span ∈ contractorSpans cs last ends,
      ∃ ds, ds ≠ [] ∧ (∀ x ∈ ds, x.isDigit = true) ∧ ('(' :: (ds ++ [')'])) <:+ span := by
  induction ends with
  | nil =>
    intro last _ span hspan
    simp [contractorSpans] at hspan
  | cons e rest ih =>
    intro last hg span hspan
    simp only [GoodEnds] at hg
    simp only [contractorSpans, List.mem_cons] at hspan
    rcases hspan with rfl | hspan
    · exact hg.1
    · exact ih e hg.2 span hspan

theorem suffix_dropWhile (p : Char → Bool) (c : Char) (sh : List Char) :
    ∀ l, (c :: sh) <:+ l → p c = false → (c :: sh) <:+ l.dropWhile p := by
  intro l
  induction l with
  | nil =>
    intro hsuf _
    rcases hsuf with ⟨pre, hpre⟩
    exact absurd hpre (by simp)
  | cons x r ih =>
    intro hsuf hc
    rw [List.dropWhile_cons]
    by_cases hx : p x = true
    · rw [if_pos hx]
      rcases List.suffix_cons_iff.mp hsuf with heq | hsuf2
      · obtain ⟨rfl, _⟩ := List.cons.inj heq
        rw [hc] at hx
        cases hx
      · exact ih hsuf2 hc
    · rw [if_neg hx]
      exact hsuf

theorem pyStripR_of_last (x : Char) (hx : pyIsSpace x = false)
    (init : List Char) : pyStripR (init ++ [x]) = init ++ [x] := by
  unfold pyStripR
  rw [List.reverse_append]
  show List.reverse (List.dropWhile pyIsSpace (x :: init.reverse)) = _
  rw [List.dropWhile_cons, if_neg (by rw [hx]; simp)]
  rw [List.reverse_cons, List.reverse_reverse]

theorem pyStrip_keeps_shape (span ds : List Char)
    (hsuf : ('(' :: (ds ++ [')'])) <:+ span) :
    ('(' :: (ds ++ [')'])) <:+ pyStrip span := by
  unfold pyStrip
  have h1 : ('(' :: (ds ++ [')'])) <:+ pyStripL span :=
    suffix_dropWhile pyIsSpace '(' _ span hsuf (by decide)
  obtain ⟨pre, hpre⟩ := h1
  have hsplit : pre ++ ('(' :: (ds ++ [')'])) = (pre ++ ('(' :: ds)) ++ [')'] := by
    simp
  have h2 : pyStripR (pyStripL span) = pyStripL span := by
    rw [← hpre, hsplit]
    exact pyStripR_of_last ')' (by decide) _
  rw [h2, ← hpre]
  exact List.suffix_append _ _

theorem digitRun_digits_paren (ds : List Char) (hds : ∀ x ∈ ds, x.isDigit = true) :
    digitRun (ds ++ [')']) = ds.length := by
  induction ds with
  | nil => rfl
  | cons d rest ih =>
    show digitRun (d :: (rest ++ [')'])) = rest.length + 1
    unfold digitRun
    rw [if_pos (hds d (List.mem_cons_self d rest)),
      ih (fun x hx => hds x (List.mem_cons_of_mem d hx))]

theorem idSearchEnd_isSome (ds : List Char) (hne : ds ≠ [])
    (hds : ∀ x ∈ ds, x.isDigit = true) :
    ∀ l, ('(' :: (ds ++ [')'])) <:+ l → ∀ i, (idSearchEnd l i).isSome = true := by
  intro l
  induction l with
  | nil =>
    intro hsuf _
    rcases hsuf with ⟨pre, hpre⟩
    exact absurd hpre (by simp)
  | cons c r ih =>
    intro hsuf i
    rcases List.suffix_cons_iff.mp hsuf with heq | hsuf2
    · obtain ⟨hc, hr⟩ := List.cons.inj heq
      rw [idSearchEnd, if_pos ?_]
      · rfl
      · refine ⟨hc.symm, ?_, ?_, ?_⟩
        · rw [← hr, digitRun_digits_paren ds hds]
          intro h0
          exact hne (List.length_eq_zero.mp h0)
        · rw [← hr, digitRun_digits_paren ds hds]
          exact List.get?_concat_length ds ')'
        · rw [← hr, digitRun_digits_paren ds hds]
          have : (ds ++ [')']).drop (ds.length + 1) = [] := by
            rw [List.drop_eq_nil_iff]
            simp
          rw [this]
          rfl
    · rw [idSearchEnd]
      by_cases hcond : (c = '(' ∧ digitRun r ≠ 0 ∧ r.get? (digitRun r) = some ')' ∧
          (r.drop (digitRun r + 1)).all pyIsSpace)
      · rw [if_pos hcond]
        rfl
      · rw [if_neg hcond]
        exact ih hsuf2 (i + 1)

theorem idSearchEnd_digits (l : List Char) : ∀ i j ds,
    idSearchEnd l i = some (j, ds) → ds ≠ [] := by
  induction l with
  | nil =>
    intro i j ds h
    cases h
  | cons c r ih =>
    intro i j ds h
    rw [idSearchEnd] at h
    by_cases hcond : (c = '(' ∧ digitRun r ≠ 0 ∧ r.get? (digitRun r) = some ')' ∧
        (r.drop (digitRun r + 1)).all pyIsSpace)
    · rw [if_pos hcond] at h
      have hpair := Option.some.inj h
      rw [Prod.mk.injEq] at hpair
      have hds : ds = r.take (digitRun r) := hpair.2.symm
      have hle : digitRun r ≤ r.length := digitRun_le r
      rw [hds]
      intro hnil
      have := congrArg List.length hnil
      rw [List.length_take, List.length_nil, min_eq_left hle] at this
      exact hcond.2.1 this
    · rw [if_neg hcond] at h
      exact ih (i + 1) j ds h

theorem asString_ne_empty (l : List Char) (h : l ≠ []) : l.asString ≠ "" := by
  intro he
  apply h
  have := congrArg String.toList he
  rw [toList_asString] at this
  exact this

theorem mkContractor_id (span ds : List Char) (hne : ds ≠ [])
    (hds : ∀ x ∈ ds, x.isDigit = true)
    (hsuf : ('(' :: (ds ++ [')'])) <:+ span) :
    optTruthy (mkContractor span).id = true := by
  have hstrip := pyStrip_keeps_shape span ds hsuf
  have hsome := idSearchEnd_isSome ds hne hds (pyStrip span) hstrip 0
  rcases hE : idSearchEnd (pyStrip span) 0 with _ | ⟨st, ds2⟩
  · rw [hE] at hsome
    cases hsome
  · have hne2 : ds2 ≠ [] := idSearchEnd_digits _ _ _ _ hE
    unfold mkContractor
    simp only [hE]
    split
    · show optTruthy (some ds2.asString) = true
      simp [optTruthy, asString_ne_empty ds2 hne2]
    · show optTruthy (some ds2.asString) = true
      simp [optTruthy, asString_ne_empty ds2 hne2]

theorem parse_contractors_id_truthy (s : Option String) :
    ∀ e ∈ parse_contractors s, optTruthy e.id = true := by
  intro e he
  unfold parse_contractors at he
  by_cases hs : optTruthy s = true
  · rw [hs] at he
    simp only [Bool.not_true, Bool.false_eq_true, if_false] at he
    obtain ⟨span, hspan, heq⟩ := List.mem_map.mp he
    have hg : GoodEnds (pyUnescape (pyStrip (s.getD "").toList)) 0
        (findEnds (pyUnescape (pyStrip (s.getD "").toList))) := by
      unfold findEnds
      have := findIterGo_good (pyUnescape (pyStrip (s.getD "").toList))
        ((pyUnescape (pyStrip (s.getD "").toList)).length + 1) 0 0 (le_refl 0)
      rwa [List.drop_zero] at this
    obtain ⟨ds, h1, h2, h3⟩ := contractorSpans_shape _ _ 0 hg span hspan
    rw [← heq]
    exact mkContractor_id span ds h1 h2 h3
  · rw [Bool.not_eq_true] at hs
    rw [hs] at he
    simp at he

/-- C4: every contractor entry returned by `parse_contractors` carries a
present id -- each match span ends exactly at a parenthesized digit group,
so the trailing-id search always succeeds and the fallback branch is
unreachable -- and consequently `get_contractor_columns` never emits
ERR-042 for a non-empty contractor text. -/
theorem c4_contractor_id_always_present (t : String) (ht : t ≠ "") :
    (∀ s : Option String, (parse_contractors s).all (fun e => e.id.isSome) = true) ∧
    (get_contractor_columns_core (some t) 4).2.errors.all
      (fun m => !(strStartsWith m "ERR-042")) = true := by
  constructor
  · intro s
    rw [List.all_eq_true]
    intro e he
    have h := parse_contractors_id_truthy s e he
    cases hid : e.id with
    | none =>
      rw [hid] at h
      cases h
    | some x => rfl
  · have herr : (contractorNotesFor (parse_contractors (some t))).errors = [] := by
      rw [contractorNotesFor_eq]
      by_cases h1 : (parse_contractors (some t)).length > 1
      · simp only [h1, if_true]
        rw [add_to_info _ "INFO-045" _ rfl rfl rfl rfl]
        show (preInfoState _).errors = []
        exact preInfoState_errors _ (fun e he => parse_contractors_id_truthy _ e he)
      · simp only [h1, if_false]
        exact preInfoState_errors _ (fun e he => parse_contractors_id_truthy _ e he)
    rw [core_nonempty t ht]
    show ((contractorNotesFor (parse_contractors (some t))).errors).all _ = true
    rw [herr]
    rfl

theorem c4_contractor_id_always_present_witness :
    ("ACME CORP (123)" : String) ≠ "" ∧
    (parse_contractors (some "ACME CORP (123)")).all (fun e => e.id.isSome) = true ∧
    (get_contractor_columns_core (some "ACME CORP (123)") 4).2.errors.all
      (fun m => !(strStartsWith m "ERR-042")) = true := by
  have h := c4_contractor_id_always_present "ACME CORP (123)" (by decide)
  exact ⟨by decide, h.1 (some "ACME CORP (123)"), h.2⟩

/-- The errors bucket only ever grows along the assembler pipeline. -/
def ErrExt (a b : ParseNotes) : Prop := ∃ x, b.errors = a.errors ++ x

theorem errExt_refl (a : ParseNotes) : ErrExt a a := ⟨[], by simp⟩

theorem errExt_trans (a b c : ParseNotes) (h1 : ErrExt a b) (h2 : ErrExt b c) : ErrExt a c := by
  obtain ⟨x, hx⟩ := h1
  obtain ⟨y, hy⟩ := h2
  exact ⟨x ++ y, by rw [hy, hx, List.append_assoc]⟩

theorem errExt_add (st : ParseNotes) (c m : String) : ErrExt st (st.add c m) := by
  unfold ParseNotes.add
  split
  · exact errExt_refl _
  · split
    · exact ⟨_, rfl⟩
    · split
      · exact errExt_refl _
      · split
        · exact errExt_refl _
        · exact errExt_refl _

theorem errExt_ite (st : ParseNotes) (b : Bool) (c m : String) :
    ErrExt st (if b then st.add c m else st) := by
  cases b
  · exact errExt_refl _
  · exact errExt_add st c m

theorem errExt_merge (st : ParseNotes) (o : NoteCols) : ErrExt st (st.merge o) := by
  unfold ParseNotes.merge
  by_cases h1 : optTruthy o.critical_errors = true <;>
    by_cases h2 : optTruthy o.errors = true <;>
    by_cases h3 : optTruthy o.warnings = true <;>
    by_cases h4 : optTruthy o.info_notes = true <;>
    simp only [h1, h2, h3, h4, if_true, if_false, Bool.false_eq_true] <;>
    first
      | exact ⟨_, rfl⟩
      | exact errExt_refl _

theorem prefix_take_of_prefix (l1 l2 : List Char) (n : Nat) (h : l1 <+: l2)
    (hn : l1.length ≤ n) : l1 <+: l2.take n := by
  obtain ⟨t, rfl⟩ := h
  rw [show n = l1.length + (n - l1.length) by omega, List.take_append]
  exact List.prefix_append _ _

theorem joinBar_head (x : String) (l : List String) :
    x.toList <+: (joinBar (x :: l)).toList := by
  cases l with
  | nil => exact List.prefix_refl _
  | cons y r =>
    show x.toList <+: (x ++ " | " ++ joinBar (y :: r)).toList
    rw [string_toList_append, string_toList_append, List.append_assoc]
    exact List.prefix_append _ _

theorem serialize_head (x : String) (l : List String) (hx : x.length ≤ 497) :
    ∃ s, serializeBucket (x :: l) 500 = some s ∧ x.toList <+: s.toList := by
  unfold serializeBucket
  rw [if_neg (by simp)]
  refine ⟨_, rfl, ?_⟩
  unfold truncNotes
  have hpre := joinBar_head x l
  by_cases hlen : (joinBar (x :: l)).length > 500
  · rw [if_pos hlen, string_toList_append, toList_asString]
    have h1 : x.toList <+: (joinBar (x :: l)).toList.take (500 - 3) :=
      prefix_take_of_prefix _ _ _ hpre (by
        have h2 : x.toList.length = x.length := rfl
        omega)
    exact h1.trans (List.prefix_append _ _)
  · rw [if_neg hlen]
    exact hpre

theorem extract_contract_notes_errors (tr : Tr)
    (hid : extract_span_by_pattern tr "lblCustomerId" = none) :
    ∃ x, (extract_contract_notes tr).errors =
      ("ERR-001" ++ ": " ++ "Missing contract ID") :: x := by
  have hext : ErrExt (ParseNotes.empty.add "ERR-001" "Missing contract ID")
      (extract_contract_notes tr) := by
    unfold extract_contract_notes
    simp only [hid]
    refine errExt_trans _ _ _ ?_ (errExt_merge _ _)
    refine errExt_trans _ _ _ ?_ (errExt_ite _ _ _ _)
    refine errExt_trans _ _ _ ?_ (errExt_merge _ _)
    refine errExt_trans _ _ _ ?_ (errExt_merge _ _)
    refine errExt_trans _ _ _ ?_ (errExt_merge _ _)
    refine errExt_trans _ _ _ ?_ (errExt_ite _ _ _ _)
    refine errExt_trans _ _ _ ?_ (errExt_ite _ _ _ _)
    refine errExt_trans _ _ _ ?_ (errExt_merge _ _)
    refine errExt_trans _ _ _ ?_ (errExt_ite _ _ _ _)
    show ErrExt _ (if !(optTruthy (none : Option String)) then
      ParseNotes.empty.add "ERR-001" "Missing contract ID" else ParseNotes.empty)
    exact errExt_refl _
  obtain ⟨x, hx⟩ := hext
  refine ⟨x, ?_⟩
  rw [hx, add_to_errors _ "ERR-001" _ rfl rfl]
  rfl

/-- C7: a row whose contract-id marker sub-element is absent still produces a
complete record, with `contract_id` absent and ERR-001 at the head of the
errors column; the row is not dropped. -/
theorem c7_missing_contract_id (tb : Tbody) (tr : Tr) (year : Int) (office fname : String)
    (htr : tb.trs.head? = some tr)
    (hid : extract_span_by_pattern tr "lblCustomerId" = none) :
    ∃ rec, extract_contract_data tb year office fname = some rec ∧
      rec.contract_id = none ∧
      ∃ s, rec.errors = some s ∧ ("ERR-001: Missing contract ID").toList <+: s.toList := by
  unfold extract_contract_data
  simp only [htr]
  refine ⟨_, rfl, hid, ?_⟩
  obtain ⟨x, hx⟩ := extract_contract_notes_errors tr hid
  show ∃ s, serializeBucket (bucketFor (extract_contract_notes tr) "errors") 500 = some s ∧ _
  have hbucket : bucketFor (extract_contract_notes tr) "errors" = (extract_contract_notes tr).errors := by
    unfold bucketFor
    rw [if_neg (by decide), if_pos rfl]
  rw [hbucket, hx]
  exact serialize_head _ x (by decide)

def c7wTr : Tr := ⟨some "1.", []⟩

def c7wTbody : Tbody := ⟨["table-group-divider"], [c7wTr]⟩

theorem c7_missing_contract_id_witness :
    c7wTbody.trs.head? = some c7wTr ∧
    extract_span_by_pattern c7wTr "lblCustomerId" = none ∧
    ∃ rec, extract_contract_data c7wTbody 2016 "Central Office" "table.html" = some rec ∧
      rec.contract_id = none ∧
      ∃ s, rec.errors = some s ∧ ("ERR-001: Missing contract ID").toList <+: s.toList :=
  ⟨rfl, rfl, c7_missing_contract_id c7wTbody c7wTr 2016 "Central Office" "table.html" rfl rfl⟩

theorem filter_ne_of_invalid (p q : Tbody → Bool) (tb : Tbody) (hq : q tb = false) :
    ∀ l : List Tbody, (((l.filter (fun x => x ≠ tb)).filter p).filter q) =
      ((l.filter p).filter q) := by
  intro l
  induction l with
  | nil => rfl
  | cons x r ih =>
    by_cases hx : x = tb
    · subst hx
      have hL : (x :: r).filter (fun y => y ≠ x) = r.filter (fun y => y ≠ x) := by
        rw [List.filter_cons, if_neg (by simp)]
      rw [hL, ih, List.filter_cons]
      cases hp : p x
      · rw [if_neg (by simp)]
      · rw [if_pos rfl, List.filter_cons, if_neg (by rw [hq]; simp)]
    · have hL : (x :: r).filter (fun y => y ≠ tb) = x :: r.filter (fun y => y ≠ tb) := by
        rw [List.filter_cons, if_pos (by simp [hx])]
      rw [hL]
      have hstep : ∀ l1 l2 : List Tbody,
          List.filter q (List.filter p l1) = List.filter q (List.filter p l2) →
          List.filter q (List.filter p (x :: l1)) = List.filter q (List.filter p (x :: l2)) := by
        intro l1 l2 hl
        rw [List.filter_cons, List.filter_cons]
        cases hp : p x
        · rw [if_neg (by simp), if_neg (by simp)]
          exact hl
        · rw [if_pos rfl, if_pos rfl, List.filter_cons, List.filter_cons]
          cases hq2 : q x
          · rw [if_neg (by simp), if_neg (by simp)]
            exact hl
          · rw [if_pos rfl, if_pos rfl, hl]
      exact hstep _ _ ih

/-- C8: a tbody whose first tr lacks a row-scoped header cell is excluded
from extraction entirely: it is not among the extracted tbodies, and removing
it from the soup leaves the produced records unchanged (it contributes zero
records, with no partial record). -/
theorem c8_invalid_tbody_excluded (soup : List Tbody) (tb : Tbody) (tr : Tr)
    (hmem : tb ∈ soup) (hhead : tb.trs.head? = some tr) (hth : tr.rowTh = none)
    (year : Int) (office fname : String) :
    tb ∉ extract_contracts soup ∧
    process_html_file_core (soup.filter (fun x => x ≠ tb)) year office fname =
      process_html_file_core soup year office fname := by
  have hvalid : (fun tb : Tbody => match tb.trs.head? with
      | some tr => tr.rowTh.isSome
      | none => false) tb = false := by
    show (match tb.trs.head? with
      | some tr => tr.rowTh.isSome
      | none => false) = false
    simp only [hhead, hth, Option.isSome_none]
  constructor
  · intro hin
    unfold extract_contracts at hin
    have h2 := (List.mem_filter.mp hin).2
    simp only [hhead, hth, Option.isSome_none, Bool.false_eq_true] at h2
  · unfold process_html_file_core extract_contracts
    rw [filter_ne_of_invalid _ _ tb hvalid soup]

def c8wInvalid : Tbody := ⟨["table-group-divider"], [⟨none, [("lblCustomerId_1", "X")]⟩]⟩

def c8wValid : Tbody := ⟨["table-group-divider"], [⟨some "1.", []⟩]⟩

theorem c8_invalid_tbody_excluded_witness :
    c8wInvalid ∈ [c8wValid, c8wInvalid] ∧
    c8wInvalid.trs.head? = some (⟨none, [("lblCustomerId_1", "X")]⟩ : Tr) ∧
    (⟨none, [("lblCustomerId_1", "X")]⟩ : Tr).rowTh = none ∧
    c8wInvalid ∉ extract_contracts [c8wValid, c8wInvalid] ∧
    process_html_file_core ([c8wValid, c8wInvalid].filter (fun x => x ≠ c8wInvalid))
        2016 "Central Office" "table.html" =
      process_html_file_core [c8wValid, c8wInvalid] 2016 "Central Office" "table.html" := by
  have h := c8_invalid_tbody_excluded [c8wValid, c8wInvalid] c8wInvalid
    ⟨none, [("lblCustomerId_1", "X")]⟩ (by decide) rfl rfl 2016 "Central Office" "table.html"
  exact ⟨by decide, rfl, rfl, h.1, h.2⟩
